import Mathlib

/-!
Verification development for the Next-Gen-Database-Project retail backend.

The source is an Express/MongoDB/Redis/Neo4j application.  We give a shallow
embedding of the components the specification talks about:

* the cart routes (`src/unnamed/part_001`, mounted at `/api/cart`): get, add,
  update, remove, clear;
* the order routes (`src/unnamed/part_000`, mounted at `/api/orders`): create
  and cancel;
* `RedisService` (`src/services/redisService.js`): the cache-aside store
  (`set`/`get`/`del`), the cart helpers, and `checkRateLimit`.

External stores (MongoDB collections, the Redis backend) are modelled as
association lists inside an explicit state record, threaded through each
handler.  Mongo `findById` is first-match lookup; `document.save()` writes the
updated document back under its id.  JavaScript numbers used for prices and
money are modelled as exact rationals; stocks and quantities as integers.
-/

namespace NGDB

/-- Assoc-list lookup by key: first entry wins (models `findById` / `GET key`). -/
def lookupKey {κ α : Type} [DecidableEq κ] : List (κ × α) → κ → Option α
  | [], _ => none
  | e :: t, k => if e.1 = k then some e.2 else lookupKey t k

/-- Overwrite the first entry with key `k` (models `document.save()` of a fetched document). -/
def setKey {κ α : Type} [DecidableEq κ] : List (κ × α) → κ → α → List (κ × α)
  | [], _, _ => []
  | e :: t, k, v => if e.1 = k then (k, v) :: t else e :: setKey t k v

/-- Insert-or-overwrite (models `SET key value`). -/
def putKey {κ α : Type} [DecidableEq κ] : List (κ × α) → κ → α → List (κ × α)
  | [], k, v => [(k, v)]
  | e :: t, k, v => if e.1 = k then (k, v) :: t else e :: putKey t k v

/-- Remove the entry with key `k`, if any (models `DEL key`). -/
def delKey {κ α : Type} [DecidableEq κ] : List (κ × α) → κ → List (κ × α)
  | [], _ => []
  | e :: t, k => if e.1 = k then t else e :: delKey t k

section AssocLemmas

variable {κ α : Type} [DecidableEq κ]

theorem lookupKey_putKey_self (l : List (κ × α)) (k : κ) (v : α) :
    lookupKey (putKey l k v) k = some v := by
  induction l with
  | nil => simp [putKey, lookupKey]
  | cons e t ih =>
      by_cases h : e.1 = k
      · simp [putKey, lookupKey, h]
      · simp [putKey, lookupKey, h, ih]

theorem lookupKey_putKey_ne (l : List (κ × α)) (k k2 : κ) (v : α) (h : k2 ≠ k) :
    lookupKey (putKey l k v) k2 = lookupKey l k2 := by
  have h2 : ¬ k = k2 := fun hh => h hh.symm
  induction l with
  | nil => simp [putKey, lookupKey, h2]
  | cons e t ih =>
      by_cases he : e.1 = k
      · simp [putKey, lookupKey, he, h2]
      · by_cases he2 : e.1 = k2
        · simp [putKey, lookupKey, he, he2, h]
        · simp [putKey, lookupKey, he, he2, ih]

theorem lookupKey_setKey_self (l : List (κ × α)) (k : κ) (v w : α)
    (h : lookupKey l k = some w) : lookupKey (setKey l k v) k = some v := by
  induction l with
  | nil => simp [lookupKey] at h
  | cons e t ih =>
      by_cases he : e.1 = k
      · simp [setKey, lookupKey, he]
      · simp [lookupKey, he] at h
        simp [setKey, lookupKey, he, ih h]

theorem lookupKey_setKey_none (l : List (κ × α)) (k : κ) (v : α)
    (h : lookupKey l k = none) : lookupKey (setKey l k v) k = none := by
  induction l with
  | nil => simp [setKey, lookupKey]
  | cons e t ih =>
      by_cases he : e.1 = k
      · simp [lookupKey, he] at h
      · simp [lookupKey, he] at h
        simp [setKey, lookupKey, he, ih h]

theorem lookupKey_setKey_ne (l : List (κ × α)) (k k2 : κ) (v : α) (h : k2 ≠ k) :
    lookupKey (setKey l k v) k2 = lookupKey l k2 := by
  have h2 : ¬ k = k2 := fun hh => h hh.symm
  induction l with
  | nil => simp [setKey, lookupKey]
  | cons e t ih =>
      by_cases he : e.1 = k
      · simp [setKey, lookupKey, he, h2]
      · by_cases he2 : e.1 = k2
        · simp [setKey, lookupKey, he, he2, h]
        · simp [setKey, lookupKey, he, he2, ih]

theorem delKey_of_lookup_none (l : List (κ × α)) (k : κ)
    (h : lookupKey l k = none) : delKey l k = l := by
  induction l with
  | nil => simp [delKey]
  | cons e t ih =>
      by_cases he : e.1 = k
      · simp [lookupKey, he] at h
      · simp [lookupKey, he] at h
        simp [delKey, he, ih h]

theorem mem_putKey (l : List (κ × α)) (k : κ) (v : α) (e : κ × α)
    (h : e ∈ putKey l k v) : e ∈ l ∨ e = (k, v) := by
  induction l with
  | nil => simp [putKey] at h; simp [h]
  | cons e0 t ih =>
      by_cases he : e0.1 = k
      · simp [putKey, he] at h
        rcases h with h | h
        · right; exact h
        · left; exact List.mem_cons_of_mem _ h
      · simp [putKey, he] at h
        rcases h with h | h
        · left; simp [h]
        · rcases ih h with h2 | h2
          · left; exact List.mem_cons_of_mem _ h2
          · right; exact h2

theorem mem_delKey (l : List (κ × α)) (k : κ) (e : κ × α)
    (h : e ∈ delKey l k) : e ∈ l := by
  induction l with
  | nil => simp [delKey] at h
  | cons e0 t ih =>
      by_cases he : e0.1 = k
      · simp [delKey, he] at h
        exact List.mem_cons_of_mem _ h
      · simp [delKey, he] at h
        rcases h with h | h
        · simp [h]
        · exact List.mem_cons_of_mem _ (ih h)

theorem lookupKey_mem (l : List (κ × α)) (k : κ) (v : α)
    (h : lookupKey l k = some v) : (k, v) ∈ l := by
  induction l with
  | nil => simp [lookupKey] at h
  | cons e t ih =>
      by_cases he : e.1 = k
      · simp [lookupKey, he] at h
        have : e = (k, v) := by
          rcases e with ⟨k0, v0⟩
          simp at he h
          simp [he, h]
        simp [this]
      · simp [lookupKey, he] at h
        exact List.mem_cons_of_mem _ (ih h)

end AssocLemmas

/-! ## Data model

`Product` is the projection of the Mongo product document used by the cart and
order routes (`name`, `price`, `stock`, `isActive`, first image URL). -/

structure Product where
  name : String
  price : ℚ
  stock : Int
  isActive : Bool
  image : String
deriving Repr, DecidableEq

/-- One cart line, as stored in Redis under `cart:{userId}`. -/
structure CartLine where
  product : Nat
  quantity : Int
deriving Repr, DecidableEq

/-- The cart payload stored in Redis: `{ items: [...] }`. -/
structure Cart where
  items : List CartLine
deriving Repr, DecidableEq

/-- State visible to the cart routes: the authoritative product collection and
the Redis cart entries (one per user id). -/
structure CartSys where
  products : List (Nat × Product)
  carts : List (Nat × Cart)
deriving Repr, DecidableEq

/-- Error outcomes of the cart routes, from the HTTP statuses and messages of
`src/unnamed/part_001`: 400 for missing/negative parameters, 404 for a missing
product/cart/line, 400 "Insufficient stock" for the stock guards. -/
inductive CartError where
  | badRequest
  | notFound
  | insufficientStock
deriving Repr, DecidableEq

/-- Quantity of the first cart line for `pid`, if any (models
`items.findIndex(item => item.product === productId)` followed by reading
`items[idx].quantity`). -/
def findLineQty : List CartLine → Nat → Option Int
  | [], _ => none
  | it :: t, pid => if it.product = pid then some it.quantity else findLineQty t pid

/-- Overwrite the quantity of the first line for `pid` (models
`items[idx].quantity = q`). -/
def setLineQty : List CartLine → Nat → Int → List CartLine
  | [], _, _ => []
  | it :: t, pid, nq =>
      if it.product = pid then ⟨it.product, nq⟩ :: t else it :: setLineQty t pid nq

/-- Remove the first line for `pid` (models `items.splice(idx, 1)`). -/
def removeLine : List CartLine → Nat → List CartLine
  | [], _ => []
  | it :: t, pid => if it.product = pid then t else it :: removeLine t pid

/-- POST `/api/cart/add` (`src/unnamed/part_001` lines 73-149): check the
product exists and is active, check `product.stock < quantity`, then merge into
an existing line (re-checking `newQuantity > product.stock`) or append a new
line, and re-persist the whole cart.  Every failure path returns before the
cart is written back. -/
def addItem (uid pid : Nat) (q : Int) (st : CartSys) : Except CartError Cart × CartSys :=
  match lookupKey st.products pid with
  | none => (.error .notFound, st)
  | some p =>
    if p.isActive = false then (.error .notFound, st)
    else if p.stock < q then (.error .insufficientStock, st)
    else
      let cart := (lookupKey st.carts uid).getD ⟨[]⟩
      match findLineQty cart.items pid with
      | some oldq =>
          let newQuantity := oldq + q
          if p.stock < newQuantity then (.error .insufficientStock, st)
          else
            let cart2 : Cart := ⟨setLineQty cart.items pid newQuantity⟩
            (.ok cart2, { st with carts := putKey st.carts uid cart2 })
      | none =>
          let cart2 : Cart := ⟨cart.items ++ [⟨pid, q⟩]⟩
          (.ok cart2, { st with carts := putKey st.carts uid cart2 })

/-- PUT `/api/cart/update` (`src/unnamed/part_001` lines 154-232): reject
negative quantities, then 404 if the product is missing or inactive, the cart
is missing, or the line is missing; quantity `0` removes the line, otherwise
the quantity is overwritten after the `quantity > product.stock` guard. -/
def updateItem (uid pid : Nat) (q : Int) (st : CartSys) : Except CartError Cart × CartSys :=
  if q < 0 then (.error .badRequest, st)
  else match lookupKey st.products pid with
  | none => (.error .notFound, st)
  | some p =>
    if p.isActive = false then (.error .notFound, st)
    else match lookupKey st.carts uid with
    | none => (.error .notFound, st)
    | some cart =>
      match findLineQty cart.items pid with
      | none => (.error .notFound, st)
      | some _ =>
        if q = 0 then
          let cart2 : Cart := ⟨removeLine cart.items pid⟩
          (.ok cart2, { st with carts := putKey st.carts uid cart2 })
        else if p.stock < q then (.error .insufficientStock, st)
        else
          let cart2 : Cart := ⟨setLineQty cart.items pid q⟩
          (.ok cart2, { st with carts := putKey st.carts uid cart2 })

/-- DELETE `/api/cart/remove/:productId` (`src/unnamed/part_001` lines
237-278): 404 if the cart or the line is missing, else splice the line out and
re-persist. -/
def removeItem (uid pid : Nat) (st : CartSys) : Except CartError Cart × CartSys :=
  match lookupKey st.carts uid with
  | none => (.error .notFound, st)
  | some cart =>
    match findLineQty cart.items pid with
    | none => (.error .notFound, st)
    | some _ =>
      let cart2 : Cart := ⟨removeLine cart.items pid⟩
      (.ok cart2, { st with carts := putKey st.carts uid cart2 })

/-- DELETE `/api/cart/clear` (`src/unnamed/part_001` lines 283-298):
unconditionally `DEL cart:{userId}` and report success. -/
def clearCart (uid : Nat) (st : CartSys) : Bool × CartSys :=
  (true, { st with carts := delKey st.carts uid })

/-- One row of the materialized cart view returned by GET `/api/cart`. -/
structure ViewItem where
  product : Nat
  name : String
  price : ℚ
  image : String
  quantity : Int
  stock : Int
  subtotal : ℚ
deriving Repr, DecidableEq

/-- The body of a GET `/api/cart` response. -/
structure CartView where
  items : List ViewItem
  total : ℚ
  itemCount : Int
deriving Repr, DecidableEq

/-- The per-line merge step of GET `/api/cart`: look the line's product up in
the fetched product batch (`products.find(p => p._id === cartItem.product)`),
returning `null` for lines whose product was not fetched. -/
def joinLine (fetched : List (Nat × Product)) (ci : CartLine) : Option ViewItem :=
  match fetched.find? (fun e => e.1 = ci.product) with
  | none => none
  | some pr =>
      some ⟨ci.product, pr.2.name, pr.2.price, pr.2.image, ci.quantity,
            pr.2.stock, pr.2.price * (ci.quantity : ℚ)⟩

/-- GET `/api/cart` (`src/unnamed/part_001` lines 11-68): read the cart from
Redis; if absent or empty answer an empty view; otherwise fetch the active
products whose ids occur in the cart (`find _id $in productIds, isActive`),
join each line with its product, drop lines whose product was not fetched, and
sum subtotals and quantities.  The handler performs no writes. -/
def getCartHandler (uid : Nat) (st : CartSys) : CartView × CartSys :=
  match lookupKey st.carts uid with
  | none => (⟨[], 0, 0⟩, st)
  | some cart =>
    if cart.items.isEmpty then (⟨[], 0, 0⟩, st)
    else
      let productIds := cart.items.map (fun it => it.product)
      let fetched := st.products.filter (fun e => productIds.contains e.1 && e.2.isActive)
      let cartItems := cart.items.filterMap (joinLine fetched)
      let total := cartItems.foldl (fun s it => s + it.subtotal) 0
      let itemCount := cartItems.foldl (fun s it => s + it.quantity) 0
      (⟨cartItems, total, itemCount⟩, st)

/-! ## Lemmas about cart lines -/

theorem findLineQty_eq_none_iff (items : List CartLine) (pid : Nat) :
    findLineQty items pid = none ↔ pid ∉ items.map (fun it => it.product) := by
  induction items with
  | nil => simp [findLineQty]
  | cons it t ih =>
      by_cases h : it.product = pid
      · simp [findLineQty, h]
      · have h2 : ¬ pid = it.product := fun hh => h hh.symm
        simp [findLineQty, h, ih, h2]

theorem findLineQty_mem (items : List CartLine) (pid : Nat) (q : Int)
    (h : findLineQty items pid = some q) : (⟨pid, q⟩ : CartLine) ∈ items := by
  induction items with
  | nil => simp [findLineQty] at h
  | cons it t ih =>
      by_cases he : it.product = pid
      · simp [findLineQty, he] at h
        have : it = ⟨pid, q⟩ := by
          rcases it with ⟨p0, q0⟩
          simp at he h
          simp [he, h]
        simp [this]
      · simp [findLineQty, he] at h
        exact List.mem_cons_of_mem _ (ih h)

theorem findLineQty_setLineQty_self (items : List CartLine) (pid : Nat) (nq : Int) (q : Int)
    (h : findLineQty items pid = some q) :
    findLineQty (setLineQty items pid nq) pid = some nq := by
  induction items with
  | nil => simp [findLineQty] at h
  | cons it t ih =>
      by_cases he : it.product = pid
      · simp [setLineQty, findLineQty, he]
      · simp [findLineQty, he] at h
        simp [setLineQty, findLineQty, he, ih h]

theorem findLineQty_setLineQty_ne (items : List CartLine) (pid pid2 : Nat) (nq : Int)
    (h : pid2 ≠ pid) :
    findLineQty (setLineQty items pid nq) pid2 = findLineQty items pid2 := by
  have h2 : ¬ pid = pid2 := fun hh => h hh.symm
  induction items with
  | nil => simp [setLineQty, findLineQty]
  | cons it t ih =>
      by_cases he : it.product = pid
      · have h3 : ¬ it.product = pid2 := by
          rw [he]; exact h2
        simp [setLineQty, findLineQty, he, h3, h2]
      · by_cases he2 : it.product = pid2
        · simp [setLineQty, findLineQty, he, he2, h]
        · simp [setLineQty, findLineQty, he, he2, ih]

theorem findLineQty_append_new (items : List CartLine) (pid : Nat) (q : Int)
    (h : findLineQty items pid = none) :
    findLineQty (items ++ [⟨pid, q⟩]) pid = some q := by
  induction items with
  | nil => simp [findLineQty]
  | cons it t ih =>
      by_cases he : it.product = pid
      · simp [findLineQty, he] at h
      · simp [findLineQty, he] at h
        simp [findLineQty, he, ih h]

theorem findLineQty_append_ne (items : List CartLine) (pid pid2 : Nat) (q : Int)
    (h : pid2 ≠ pid) :
    findLineQty (items ++ [⟨pid, q⟩]) pid2 = findLineQty items pid2 := by
  have h2 : ¬ pid = pid2 := fun hh => h hh.symm
  induction items with
  | nil => simp [findLineQty, h2]
  | cons it t ih =>
      by_cases he : it.product = pid2
      · simp [findLineQty, he]
      · simp [findLineQty, he, ih]

theorem setLineQty_map_product (items : List CartLine) (pid : Nat) (nq : Int) :
    (setLineQty items pid nq).map (fun it => it.product)
      = items.map (fun it => it.product) := by
  induction items with
  | nil => simp [setLineQty]
  | cons it t ih =>
      by_cases he : it.product = pid
      · simp [setLineQty, he]
      · simp [setLineQty, he, ih]

theorem mem_setLineQty (items : List CartLine) (pid : Nat) (nq : Int) (it : CartLine)
    (h : it ∈ setLineQty items pid nq) : it ∈ items ∨ it.quantity = nq := by
  induction items with
  | nil => simp [setLineQty] at h
  | cons it0 t ih =>
      by_cases he : it0.product = pid
      · simp [setLineQty, he] at h
        rcases h with h | h
        · right; simp [h]
        · left; exact List.mem_cons_of_mem _ h
      · simp [setLineQty, he] at h
        rcases h with h | h
        · left; simp [h]
        · rcases ih h with h2 | h2
          · left; exact List.mem_cons_of_mem _ h2
          · right; exact h2

theorem removeLine_sublist (items : List CartLine) (pid : Nat) :
    (removeLine items pid).Sublist items := by
  induction items with
  | nil => simp [removeLine]
  | cons it t ih =>
      by_cases he : it.product = pid
      · simp only [removeLine, he, if_true]
        exact List.sublist_cons_self it t
      · simp only [removeLine, he, if_false, ite_false]
        exact List.Sublist.cons₂ it ih

/-- A one-product catalogue with the given stock (product id 1, price 1,
active) and no carts; the scenario of the spec's add-to-cart example. -/
def addExSt (stock : Int) : CartSys :=
  ⟨[(1, ⟨"A", 1, stock, true, ""⟩)], []⟩

/-- C4: `addItem` fails with `NotFound` when the product is missing or
inactive; it fails with `InsufficientStock`, leaving the stored cart
unchanged, exactly when the resulting line quantity (existing quantity plus
`q`, or `q` alone for a new line) exceeds current stock; otherwise it merges
into the existing line or appends a new one, so that the stored line for the
product carries the resulting quantity and all other lines are untouched.  In
particular, adding quantities 2 then 3 against stock 10 yields one line of
quantity 5, while against stock 4 the second add fails and the line stays
at 2.  (The stored cart is assumed to hold no negative quantities, which every
reachable cart satisfies.) -/
theorem claimC4_addItem (uid pid : Nat) (q : Int) (st : CartSys)
    (hwf : ∀ c, lookupKey st.carts uid = some c → ∀ it ∈ c.items, 0 ≤ it.quantity) :
    ((lookupKey st.products pid = none ∨
        (∃ p, lookupKey st.products pid = some p ∧ p.isActive = false)) →
      addItem uid pid q st = (.error .notFound, st)) ∧
    (∀ p, lookupKey st.products pid = some p → p.isActive = true →
      (p.stock < (findLineQty ((lookupKey st.carts uid).getD ⟨[]⟩).items pid).getD 0 + q →
        addItem uid pid q st = (.error .insufficientStock, st)) ∧
      ((findLineQty ((lookupKey st.carts uid).getD ⟨[]⟩).items pid).getD 0 + q ≤ p.stock →
        ∃ c2, addItem uid pid q st = (.ok c2, { st with carts := putKey st.carts uid c2 }) ∧
          findLineQty c2.items pid =
            some ((findLineQty ((lookupKey st.carts uid).getD ⟨[]⟩).items pid).getD 0 + q) ∧
          ∀ pid2, pid2 ≠ pid →
            findLineQty c2.items pid2 =
              findLineQty ((lookupKey st.carts uid).getD ⟨[]⟩).items pid2)) ∧
    (addItem 0 1 3 (addItem 0 1 2 (addExSt 10)).2).1 = .ok ⟨[⟨1, 5⟩]⟩ ∧
    lookupKey (addItem 0 1 3 (addItem 0 1 2 (addExSt 10)).2).2.carts 0 = some ⟨[⟨1, 5⟩]⟩ ∧
    (addItem 0 1 3 (addItem 0 1 2 (addExSt 4)).2).1 = .error .insufficientStock ∧
    lookupKey (addItem 0 1 3 (addItem 0 1 2 (addExSt 4)).2).2.carts 0 = some ⟨[⟨1, 2⟩]⟩ := by
  refine ⟨?_, ?_, by rfl, by rfl, by rfl, by rfl⟩
  · rintro (h | ⟨p, hp, hact⟩)
    · simp [addItem, h]
    · simp [addItem, hp, hact]
  · intro p hp hact
    have hone : 0 ≤ (findLineQty ((lookupKey st.carts uid).getD ⟨[]⟩).items pid).getD 0 := by
      cases hc : lookupKey st.carts uid with
      | none => simp [hc, findLineQty]
      | some c =>
          cases hf : findLineQty c.items pid with
          | none => simp [hc, hf]
          | some oldq =>
              simp only [hc, Option.getD_some, hf]
              exact hwf c hc _ (findLineQty_mem c.items pid oldq hf)
    cases hf : findLineQty ((lookupKey st.carts uid).getD ⟨[]⟩).items pid with
    | none =>
        simp only [hf, Option.getD_none, zero_add]
        constructor
        · intro hlt
          simp [addItem, hp, hact, hf, hlt]
        · intro hle
          have hnlt : ¬ p.stock < q := not_lt.mpr hle
          refine ⟨⟨((lookupKey st.carts uid).getD ⟨[]⟩).items ++ [⟨pid, q⟩]⟩, ?_, ?_, ?_⟩
          · simp [addItem, hp, hact, hf, hnlt]
          · exact findLineQty_append_new _ pid q hf
          · intro pid2 hne
            exact findLineQty_append_ne _ pid pid2 q hne
    | some oldq =>
        have hq0 : 0 ≤ oldq := by
          simpa [hf] using hone
        simp only [hf, Option.getD_some]
        constructor
        · intro hlt
          by_cases hq : p.stock < q
          · simp [addItem, hp, hact, hf, hq]
          · simp [addItem, hp, hact, hf, hq, hlt]
        · intro hle
          have hnq : ¬ p.stock < q := by omega
          have hnlt : ¬ p.stock < oldq + q := not_lt.mpr hle
          refine ⟨⟨setLineQty ((lookupKey st.carts uid).getD ⟨[]⟩).items pid (oldq + q)⟩, ?_, ?_, ?_⟩
          · simp [addItem, hp, hact, hf, hnq, hnlt]
          · exact findLineQty_setLineQty_self _ pid (oldq + q) oldq hf
          · intro pid2 hne
            exact findLineQty_setLineQty_ne _ pid pid2 (oldq + q) hne

/-- Witness for C4 at concrete inputs: adding 12 to an empty cart against
stock 10 is rejected with `InsufficientStock`. -/
theorem claimC4_addItem_witness :
    addItem 0 1 12 (addExSt 10) = (.error .insufficientStock, addExSt 10) :=
  ((claimC4_addItem 0 1 12 (addExSt 10)
      (fun c hc => by simp [addExSt, lookupKey] at hc)).2.1
    ⟨"A", 1, 10, true, ""⟩ rfl rfl).1 (by decide)

/-- A catalogue whose only product (id 1) is inactive, with a cart for user 0
that still holds a line of quantity 2 for it. -/
def updExSt : CartSys :=
  ⟨[(1, ⟨"A", 1, 5, false, ""⟩)], [(0, ⟨[⟨1, 2⟩]⟩)]⟩

/-- C8 counterexample: `updateItem` can return `NotFound` although the cart
exists and contains a line for the product — it suffices that the product is
inactive, because the product check precedes the cart checks.  This refutes
"fails with NotFound exactly when the cart does not exist or contains no line
for that product". -/
theorem claimC8_counterexample :
    (updateItem 0 1 1 updExSt).1 = .error .notFound ∧
    lookupKey updExSt.carts 0 = some ⟨[⟨1, 2⟩]⟩ ∧
    findLineQty (⟨[⟨1, 2⟩]⟩ : Cart).items 1 = some 2 :=
  ⟨rfl, rfl, rfl⟩

/-- C8 (amended): for `q ≥ 0`, `updateItem` fails with `NotFound` exactly when
the product is missing or inactive, or the cart does not exist, or it contains
no line for the product; when the product is present and active and the line
exists, `q = 0` removes the line, `q > 0` fails with `InsufficientStock` iff
`q` exceeds current stock and otherwise overwrites the line quantity to
exactly `q`, leaving other lines untouched. -/
theorem claimC8_updateItem (uid pid : Nat) (q : Int) (st : CartSys) (hq : 0 ≤ q) :
    ((updateItem uid pid q st).1 = .error .notFound ↔
      (lookupKey st.products pid = none ∨
       (∃ p, lookupKey st.products pid = some p ∧ p.isActive = false) ∨
       lookupKey st.carts uid = none ∨
       (∃ c, lookupKey st.carts uid = some c ∧ findLineQty c.items pid = none))) ∧
    (∀ p c, lookupKey st.products pid = some p → p.isActive = true →
      lookupKey st.carts uid = some c → (∃ oldq, findLineQty c.items pid = some oldq) →
      (q = 0 → updateItem uid pid q st =
        (.ok ⟨removeLine c.items pid⟩,
         { st with carts := putKey st.carts uid ⟨removeLine c.items pid⟩ })) ∧
      (0 < q → p.stock < q → updateItem uid pid q st = (.error .insufficientStock, st)) ∧
      (0 < q → q ≤ p.stock →
        updateItem uid pid q st =
          (.ok ⟨setLineQty c.items pid q⟩,
           { st with carts := putKey st.carts uid ⟨setLineQty c.items pid q⟩ }) ∧
        findLineQty (setLineQty c.items pid q) pid = some q ∧
        ∀ pid2, pid2 ≠ pid →
          findLineQty (setLineQty c.items pid q) pid2 = findLineQty c.items pid2)) := by
  have hnq : ¬ q < 0 := not_lt.mpr hq
  constructor
  · cases hp : lookupKey st.products pid with
    | none =>
        refine iff_of_true ?_ (Or.inl rfl)
        simp [updateItem, hnq, hp]
    | some p =>
        cases hact : p.isActive with
        | false =>
            refine iff_of_true ?_ (Or.inr (Or.inl ⟨p, rfl, hact⟩))
            simp [updateItem, hnq, hp, hact]
        | true =>
            cases hc : lookupKey st.carts uid with
            | none =>
                refine iff_of_true ?_ (Or.inr (Or.inr (Or.inl rfl)))
                simp [updateItem, hnq, hp, hact, hc]
            | some c =>
                cases hf : findLineQty c.items pid with
                | none =>
                    refine iff_of_true ?_ (Or.inr (Or.inr (Or.inr ⟨c, rfl, hf⟩)))
                    simp [updateItem, hnq, hp, hact, hc, hf]
                | some oldq =>
                    have hrhs : ¬ ((some p : Option Product) = none ∨
                        (∃ p2, (some p : Option Product) = some p2 ∧ p2.isActive = false) ∨
                        (some c : Option Cart) = none ∨
                        (∃ c2, (some c : Option Cart) = some c2 ∧
                          findLineQty c2.items pid = none)) := by
                      rintro (h | ⟨p2, h1, h2⟩ | h | ⟨c2, h1, h2⟩)
                      · cases h
                      · cases h1
                        rw [hact] at h2; cases h2
                      · cases h
                      · cases h1
                        rw [hf] at h2; cases h2
                    refine iff_of_false ?_ hrhs
                    by_cases hz : q = 0
                    · simp [updateItem, hnq, hp, hact, hc, hf, hz]
                    · by_cases hs : p.stock < q
                      · simp [updateItem, hnq, hp, hact, hc, hf, hz, hs]
                      · simp [updateItem, hnq, hp, hact, hc, hf, hz, hs]
  · intro p c hp hact hc hex
    rcases hex with ⟨oldq, hf⟩
    refine ⟨?_, ?_, ?_⟩
    · intro hz
      simp [updateItem, hnq, hp, hact, hc, hf, hz]
    · intro hpos hs
      have hz : ¬ q = 0 := by omega
      simp [updateItem, hnq, hp, hact, hc, hf, hz, hs]
    · intro hpos hle
      have hz : ¬ q = 0 := by omega
      have hs : ¬ p.stock < q := not_lt.mpr hle
      refine ⟨?_, ?_, ?_⟩
      · simp [updateItem, hnq, hp, hact, hc, hf, hz, hs]
      · exact findLineQty_setLineQty_self c.items pid q oldq hf
      · intro pid2 hne
        exact findLineQty_setLineQty_ne c.items pid pid2 q hne

/-- Witness for C8 at concrete inputs: with an active product of stock 5 and a
stored line of quantity 2, updating to quantity 4 overwrites the line to
exactly 4. -/
theorem claimC8_updateItem_witness :
    updateItem 0 1 4 (⟨[(1, ⟨"A", 1, 5, true, ""⟩)], [(0, ⟨[⟨1, 2⟩]⟩)]⟩ : CartSys) =
      (.ok ⟨[⟨1, 4⟩]⟩,
       { (⟨[(1, ⟨"A", 1, 5, true, ""⟩)], [(0, ⟨[⟨1, 2⟩]⟩)]⟩ : CartSys) with
           carts := putKey [(0, ⟨[⟨1, 2⟩]⟩)] 0 ⟨setLineQty [⟨1, 2⟩] 1 4⟩ }) :=
  (((claimC8_updateItem 0 1 4 ⟨[(1, ⟨"A", 1, 5, true, ""⟩)], [(0, ⟨[⟨1, 2⟩]⟩)]⟩
      (by decide)).2 ⟨"A", 1, 5, true, ""⟩ ⟨[⟨1, 2⟩]⟩ rfl rfl rfl ⟨2, rfl⟩).2.2
    (by decide) (by decide)).1

/-- Reference formulation of the per-line join of GET `/api/cart`: a stored
line materializes against the authoritative product record, and is dropped
when the product is missing or inactive. -/
def materializeLine (products : List (Nat × Product)) (ci : CartLine) : Option ViewItem :=
  match lookupKey products ci.product with
  | none => none
  | some p =>
      if p.isActive then
        some ⟨ci.product, p.name, p.price, p.image, ci.quantity, p.stock,
              p.price * (ci.quantity : ℚ)⟩
      else none

theorem lookupKey_eq_none_iff {κ α : Type} [DecidableEq κ] (l : List (κ × α)) (k : κ) :
    lookupKey l k = none ↔ k ∉ l.map Prod.fst := by
  induction l with
  | nil => simp [lookupKey]
  | cons e t ih =>
      by_cases h : e.1 = k
      · simp [lookupKey, h]
      · have h2 : ¬ k = e.1 := fun hh => h hh.symm
        simp [lookupKey, h, ih, h2]

theorem find?_filter_of_lookup_none {κ α : Type} [DecidableEq κ]
    (l : List (κ × α)) (k : κ) (φ : κ × α → Bool)
    (h : lookupKey l k = none) :
    (l.filter φ).find? (fun e => e.1 = k) = none := by
  induction l with
  | nil => simp
  | cons e t ih =>
      by_cases he : e.1 = k
      · simp [lookupKey, he] at h
      · simp only [lookupKey, he, if_false, ite_false] at h
        by_cases hf : φ e
        · simp [List.filter_cons, hf, List.find?_cons, he, ih h]
        · simp [List.filter_cons, hf, ih h]

theorem find?_filter_lookup {κ α : Type} [DecidableEq κ]
    (l : List (κ × α)) (k : κ) (φ : κ × α → Bool)
    (hnd : (l.map Prod.fst).Nodup) :
    (l.filter φ).find? (fun e => e.1 = k) =
      match lookupKey l k with
      | none => none
      | some v => if φ (k, v) then some (k, v) else none := by
  induction l with
  | nil => simp [lookupKey]
  | cons e t ih =>
      rcases e with ⟨k0, v0⟩
      have hnd2 : (t.map Prod.fst).Nodup := (List.nodup_cons.mp hnd).2
      have hne : k0 ∉ t.map Prod.fst := (List.nodup_cons.mp hnd).1
      by_cases he : k0 = k
      · subst he
        have hto : lookupKey t k0 = none := (lookupKey_eq_none_iff t k0).mpr hne
        by_cases hf : φ (k0, v0)
        · simp [List.filter_cons, hf, List.find?_cons, lookupKey]
        · simp [List.filter_cons, hf, lookupKey,
                find?_filter_of_lookup_none t k0 φ hto]
      · by_cases hf : φ (k0, v0)
        · simp [List.filter_cons, hf, List.find?_cons, he, lookupKey, ih hnd2]
        · simp [List.filter_cons, hf, lookupKey, he, ih hnd2]

theorem foldl_add_map {α β : Type} [AddCommMonoid β] (f : α → β) (l : List α) (s : β) :
    l.foldl (fun a it => a + f it) s = s + (l.map f).sum := by
  induction l generalizing s with
  | nil => simp
  | cons it t ih => simp [ih, add_assoc]

theorem filterMap_congr_mem {α β : Type} (f g : α → Option β) (l : List α)
    (h : ∀ x ∈ l, f x = g x) : l.filterMap f = l.filterMap g := by
  induction l with
  | nil => simp
  | cons x t ih =>
      have hx := h x (List.mem_cons_self x t)
      have ht := ih (fun y hy => h y (List.mem_cons_of_mem x hy))
      cases hg : g x with
      | none => simp [List.filterMap_cons, hx, hg, ht]
      | some b => simp [List.filterMap_cons, hx, hg, ht]

theorem joinLine_eq_materializeLine (st : CartSys) (cart : Cart)
    (hnd : (st.products.map Prod.fst).Nodup) (ci : CartLine) (hci : ci ∈ cart.items) :
    joinLine (st.products.filter
        (fun e => (cart.items.map (fun it => it.product)).contains e.1 && e.2.isActive)) ci
      = materializeLine st.products ci := by
  unfold joinLine materializeLine
  rw [find?_filter_lookup st.products ci.product _ hnd]
  cases hp : lookupKey st.products ci.product with
  | none => simp
  | some p =>
      have hex : ∃ a ∈ cart.items, a.product = ci.product := ⟨ci, hci, rfl⟩
      cases hact : p.isActive with
      | false => simp [hact]
      | true => simp [hact, hex]

theorem getCartHandler_of_some (uid : Nat) (st : CartSys) (cart : Cart)
    (hnd : (st.products.map Prod.fst).Nodup)
    (hc : lookupKey st.carts uid = some cart) (hne : cart.items.isEmpty = false) :
    getCartHandler uid st =
      (⟨cart.items.filterMap (materializeLine st.products),
        ((cart.items.filterMap (materializeLine st.products)).map
          (fun it => it.subtotal)).sum,
        ((cart.items.filterMap (materializeLine st.products)).map
          (fun it => it.quantity)).sum⟩, st) := by
  have hjoin := filterMap_congr_mem _ _ cart.items
    (fun ci hci => joinLine_eq_materializeLine st cart hnd ci hci)
  simp only [getCartHandler, hc, hne, ite_false, Bool.false_eq_true, if_false]
  rw [hjoin, foldl_add_map, foldl_add_map, zero_add, zero_add]

theorem mem_materializeLine (products : List (Nat × Product)) (ci : CartLine)
    (vi : ViewItem) (h : materializeLine products ci = some vi) :
    vi.subtotal = vi.price * (vi.quantity : ℚ) := by
  unfold materializeLine at h
  cases hp : lookupKey products ci.product with
  | none => rw [hp] at h; cases h
  | some p =>
      cases hact : p.isActive with
      | false => rw [hp] at h; simp [hact] at h
      | true =>
          rw [hp] at h
          simp [hact] at h
          rw [← h]

/-- C10: GET `/api/cart` materializes the stored cart against the live product
collection — every line whose product is missing or inactive is silently
dropped from the returned view, each remaining line is joined with the live
record (with `subtotal = price × quantity`), `total` is the sum of the
remaining subtotals and `itemCount` the sum of the remaining quantities — and
the handler leaves the whole state, in particular the stored cart entry,
unchanged.  (Product ids are assumed unique in the catalogue.) -/
theorem claimC10_getCart (uid : Nat) (st : CartSys)
    (hnd : (st.products.map Prod.fst).Nodup) :
    (getCartHandler uid st).2 = st ∧
    (getCartHandler uid st).1.items =
      ((lookupKey st.carts uid).getD ⟨[]⟩).items.filterMap (materializeLine st.products) ∧
    (getCartHandler uid st).1.total =
      ((getCartHandler uid st).1.items.map (fun it => it.subtotal)).sum ∧
    (getCartHandler uid st).1.itemCount =
      ((getCartHandler uid st).1.items.map (fun it => it.quantity)).sum ∧
    ∀ vi ∈ (getCartHandler uid st).1.items,
      vi.subtotal = vi.price * (vi.quantity : ℚ) := by
  cases hc : lookupKey st.carts uid with
  | none =>
      simp [getCartHandler, hc]
  | some cart =>
      cases hitems : cart.items with
      | nil =>
          have hemp : cart.items.isEmpty = true := by simp [hitems]
          simp [getCartHandler, hc, hemp, hitems]
      | cons it0 t0 =>
          have hne : cart.items.isEmpty = false := by simp [hitems]
          rw [getCartHandler_of_some uid st cart hnd hc hne]
          refine ⟨rfl, by simp [hc], rfl, rfl, ?_⟩
          intro vi hvi
          rcases List.mem_filterMap.mp hvi with ⟨ci, hci, hmat⟩
          exact mem_materializeLine st.products ci vi hmat

/-- Witness for C10 at a concrete state: a cart with one active-product line
and one inactive-product line materializes to a single view row. -/
theorem claimC10_getCart_witness :
    (getCartHandler 0 (⟨[(1, ⟨"A", 3, 7, true, "i"⟩), (2, ⟨"B", 4, 9, false, "j"⟩)],
        [(0, ⟨[⟨1, 2⟩, ⟨2, 5⟩]⟩)]⟩ : CartSys)).1.items =
      ([⟨1, 2⟩, ⟨2, 5⟩] : List CartLine).filterMap
        (materializeLine [(1, ⟨"A", 3, 7, true, "i"⟩), (2, ⟨"B", 4, 9, false, "j"⟩)]) :=
  (claimC10_getCart 0
    ⟨[(1, ⟨"A", 3, 7, true, "i"⟩), (2, ⟨"B", 4, 9, false, "j"⟩)],
      [(0, ⟨[⟨1, 2⟩, ⟨2, 5⟩]⟩)]⟩ (by decide)).2.1

/-! ## Reachable cart states (C7) -/

/-- The invariant claimed for stored carts: strictly positive quantities and
no duplicate product ids. -/
def CartOK (c : Cart) : Prop :=
  (∀ it ∈ c.items, 0 < it.quantity) ∧ (c.items.map (fun it => it.product)).Nodup

/-- Cart-cache states reachable from the empty cache by the four cart
mutations with arbitrary inputs (and an arbitrary product catalogue at each
step). -/
inductive CartReach : List (Nat × Cart) → Prop where
  | init : CartReach []
  | add (prods : List (Nat × Product)) (uid pid : Nat) (q : Int) {cs : List (Nat × Cart)} :
      CartReach cs → CartReach (addItem uid pid q ⟨prods, cs⟩).2.carts
  | update (prods : List (Nat × Product)) (uid pid : Nat) (q : Int) {cs : List (Nat × Cart)} :
      CartReach cs → CartReach (updateItem uid pid q ⟨prods, cs⟩).2.carts
  | remove (prods : List (Nat × Product)) (uid pid : Nat) {cs : List (Nat × Cart)} :
      CartReach cs → CartReach (removeItem uid pid ⟨prods, cs⟩).2.carts
  | clear (prods : List (Nat × Product)) (uid : Nat) {cs : List (Nat × Cart)} :
      CartReach cs → CartReach (clearCart uid ⟨prods, cs⟩).2.carts

/-- Like `CartReach`, but every `addItem` step uses a strictly positive
quantity (`updateItem` already rejects negative quantities itself). -/
inductive CartReachPos : List (Nat × Cart) → Prop where
  | init : CartReachPos []
  | add (prods : List (Nat × Product)) (uid pid : Nat) (q : Int) {cs : List (Nat × Cart)} :
      0 < q → CartReachPos cs → CartReachPos (addItem uid pid q ⟨prods, cs⟩).2.carts
  | update (prods : List (Nat × Product)) (uid pid : Nat) (q : Int) {cs : List (Nat × Cart)} :
      CartReachPos cs → CartReachPos (updateItem uid pid q ⟨prods, cs⟩).2.carts
  | remove (prods : List (Nat × Product)) (uid pid : Nat) {cs : List (Nat × Cart)} :
      CartReachPos cs → CartReachPos (removeItem uid pid ⟨prods, cs⟩).2.carts
  | clear (prods : List (Nat × Product)) (uid : Nat) {cs : List (Nat × Cart)} :
      CartReachPos cs → CartReachPos (clearCart uid ⟨prods, cs⟩).2.carts

/-- Entry-wise form of the invariant. -/
def CartsOK (cs : List (Nat × Cart)) : Prop := ∀ e ∈ cs, CartOK e.2

theorem cartsOK_putKey (cs : List (Nat × Cart)) (uid : Nat) (c : Cart)
    (h : CartsOK cs) (hc : CartOK c) : CartsOK (putKey cs uid c) := by
  intro e he
  rcases mem_putKey cs uid c e he with h2 | h2
  · exact h e h2
  · rw [h2]; exact hc

theorem cartOK_stored (cs : List (Nat × Cart)) (uid : Nat) (h : CartsOK cs) :
    CartOK ((lookupKey cs uid).getD ⟨[]⟩) := by
  cases hc : lookupKey cs uid with
  | none =>
      constructor
      · intro it hit; simp at hit
      · simp
  | some c => exact h (uid, c) (lookupKey_mem cs uid c hc)

theorem cartOK_setLine (c : Cart) (pid : Nat) (nq : Int) (hc : CartOK c) (hq : 0 < nq) :
    CartOK ⟨setLineQty c.items pid nq⟩ := by
  constructor
  · intro it hit
    rcases mem_setLineQty c.items pid nq it hit with h2 | h2
    · exact hc.1 it h2
    · rw [h2]; exact hq
  · show (List.map (fun it => it.product) (setLineQty c.items pid nq)).Nodup
    rw [setLineQty_map_product]
    exact hc.2

theorem cartOK_removeLine (c : Cart) (pid : Nat) (hc : CartOK c) :
    CartOK ⟨removeLine c.items pid⟩ := by
  constructor
  · intro it hit
    exact hc.1 it ((removeLine_sublist c.items pid).subset hit)
  · show (List.map (fun it => it.product) (removeLine c.items pid)).Nodup
    exact hc.2.sublist ((removeLine_sublist c.items pid).map _)

theorem cartOK_append (c : Cart) (pid : Nat) (q : Int) (hc : CartOK c) (hq : 0 < q)
    (hnew : findLineQty c.items pid = none) :
    CartOK ⟨c.items ++ [⟨pid, q⟩]⟩ := by
  have hnm : pid ∉ c.items.map (fun it => it.product) :=
    (findLineQty_eq_none_iff c.items pid).mp hnew
  constructor
  · intro it hit
    rcases List.mem_append.mp hit with h2 | h2
    · exact hc.1 it h2
    · simp at h2
      rw [h2]; exact hq
  · show (List.map (fun it => it.product) (c.items ++ [⟨pid, q⟩])).Nodup
    rw [List.map_append, List.nodup_append]
    refine ⟨hc.2, List.nodup_singleton _, ?_⟩
    intro a ha hb
    simp at hb
    rw [hb] at ha
    exact hnm ha

theorem cartsOK_addItem (prods : List (Nat × Product)) (uid pid : Nat) (q : Int)
    (cs : List (Nat × Cart)) (hq : 0 < q) (h : CartsOK cs) :
    CartsOK (addItem uid pid q ⟨prods, cs⟩).2.carts := by
  cases hp : lookupKey prods pid with
  | none => simpa [addItem, hp] using h
  | some p =>
      cases hact : p.isActive with
      | false => simpa [addItem, hp, hact] using h
      | true =>
          by_cases hs : p.stock < q
          · simpa [addItem, hp, hact, hs] using h
          · have hcOK := cartOK_stored cs uid h
            cases hf : findLineQty ((lookupKey cs uid).getD ⟨[]⟩).items pid with
            | some oldq =>
                have holdpos : 0 < oldq :=
                  hcOK.1 _ (findLineQty_mem _ pid oldq hf)
                by_cases hs2 : p.stock < oldq + q
                · simpa [addItem, hp, hact, hs, hf, hs2] using h
                · have hnew : CartOK ⟨setLineQty ((lookupKey cs uid).getD ⟨[]⟩).items pid (oldq + q)⟩ :=
                    cartOK_setLine _ pid (oldq + q) hcOK (by omega)
                  simpa [addItem, hp, hact, hs, hf, hs2] using
                    cartsOK_putKey cs uid _ h hnew
            | none =>
                have hnew : CartOK ⟨((lookupKey cs uid).getD ⟨[]⟩).items ++ [⟨pid, q⟩]⟩ :=
                  cartOK_append _ pid q hcOK hq hf
                simpa [addItem, hp, hact, hs, hf] using
                  cartsOK_putKey cs uid _ h hnew

theorem cartsOK_updateItem (prods : List (Nat × Product)) (uid pid : Nat) (q : Int)
    (cs : List (Nat × Cart)) (h : CartsOK cs) :
    CartsOK (updateItem uid pid q ⟨prods, cs⟩).2.carts := by
  by_cases hneg : q < 0
  · simpa [updateItem, hneg] using h
  · cases hp : lookupKey prods pid with
    | none => simpa [updateItem, hneg, hp] using h
    | some p =>
        cases hact : p.isActive with
        | false => simpa [updateItem, hneg, hp, hact] using h
        | true =>
            cases hc : lookupKey cs uid with
            | none => simpa [updateItem, hneg, hp, hact, hc] using h
            | some c =>
                have hcOK : CartOK c := h (uid, c) (lookupKey_mem cs uid c hc)
                cases hf : findLineQty c.items pid with
                | none => simpa [updateItem, hneg, hp, hact, hc, hf] using h
                | some oldq =>
                    by_cases hz : q = 0
                    · simpa [updateItem, hneg, hp, hact, hc, hf, hz] using
                        cartsOK_putKey cs uid _ h (cartOK_removeLine c pid hcOK)
                    · by_cases hs : p.stock < q
                      · simpa [updateItem, hneg, hp, hact, hc, hf, hz, hs] using h
                      · have hqpos : 0 < q := by omega
                        simpa [updateItem, hneg, hp, hact, hc, hf, hz, hs] using
                          cartsOK_putKey cs uid _ h (cartOK_setLine c pid q hcOK hqpos)

theorem cartsOK_removeItem (prods : List (Nat × Product)) (uid pid : Nat)
    (cs : List (Nat × Cart)) (h : CartsOK cs) :
    CartsOK (removeItem uid pid ⟨prods, cs⟩).2.carts := by
  cases hc : lookupKey cs uid with
  | none => simpa [removeItem, hc] using h
  | some c =>
      have hcOK : CartOK c := h (uid, c) (lookupKey_mem cs uid c hc)
      cases hf : findLineQty c.items pid with
      | none => simpa [removeItem, hc, hf] using h
      | some oldq =>
          simpa [removeItem, hc, hf] using
            cartsOK_putKey cs uid _ h (cartOK_removeLine c pid hcOK)

theorem cartsOK_clearCart (prods : List (Nat × Product)) (uid : Nat)
    (cs : List (Nat × Cart)) (h : CartsOK cs) :
    CartsOK (clearCart uid ⟨prods, cs⟩).2.carts := by
  intro e he
  exact h e (mem_delKey cs uid e he)

theorem cartsOK_of_reachPos (cs : List (Nat × Cart)) (h : CartReachPos cs) :
    CartsOK cs := by
  induction h with
  | init => intro e he; simp at he
  | add prods uid pid q hq hr ih => exact cartsOK_addItem prods uid pid q _ hq ih
  | update prods uid pid q hr ih => exact cartsOK_updateItem prods uid pid q _ ih
  | remove prods uid pid hr ih => exact cartsOK_removeItem prods uid pid _ ih
  | clear prods uid hr ih => exact cartsOK_clearCart prods uid _ ih

/-- The uniqueness half of the invariant alone: no two lines of the cart share
a product id.  It holds for arbitrary inputs, quantity guards play no role. -/
def CartUniq (c : Cart) : Prop := (c.items.map (fun it => it.product)).Nodup

/-- Entry-wise form of the uniqueness invariant. -/
def CartsUniq (cs : List (Nat × Cart)) : Prop := ∀ e ∈ cs, CartUniq e.2

theorem cartsUniq_putKey (cs : List (Nat × Cart)) (uid : Nat) (c : Cart)
    (h : CartsUniq cs) (hc : CartUniq c) : CartsUniq (putKey cs uid c) := by
  intro e he
  rcases mem_putKey cs uid c e he with h2 | h2
  · exact h e h2
  · rw [h2]; exact hc

theorem cartUniq_stored (cs : List (Nat × Cart)) (uid : Nat) (h : CartsUniq cs) :
    CartUniq ((lookupKey cs uid).getD ⟨[]⟩) := by
  cases hc : lookupKey cs uid with
  | none => simp [CartUniq]
  | some c => exact h (uid, c) (lookupKey_mem cs uid c hc)

theorem cartUniq_setLine (c : Cart) (pid : Nat) (nq : Int) (hc : CartUniq c) :
    CartUniq ⟨setLineQty c.items pid nq⟩ := by
  show (List.map (fun it => it.product) (setLineQty c.items pid nq)).Nodup
  rw [setLineQty_map_product]
  exact hc

theorem cartUniq_removeLine (c : Cart) (pid : Nat) (hc : CartUniq c) :
    CartUniq ⟨removeLine c.items pid⟩ := by
  show (List.map (fun it => it.product) (removeLine c.items pid)).Nodup
  exact hc.sublist ((removeLine_sublist c.items pid).map _)

theorem cartUniq_append (c : Cart) (pid : Nat) (q : Int) (hc : CartUniq c)
    (hnew : findLineQty c.items pid = none) :
    CartUniq ⟨c.items ++ [⟨pid, q⟩]⟩ := by
  have hnm : pid ∉ c.items.map (fun it => it.product) :=
    (findLineQty_eq_none_iff c.items pid).mp hnew
  show (List.map (fun it => it.product) (c.items ++ [⟨pid, q⟩])).Nodup
  rw [List.map_append, List.nodup_append]
  refine ⟨hc, List.nodup_singleton _, ?_⟩
  intro a ha hb
  simp at hb
  rw [hb] at ha
  exact hnm ha

theorem cartsUniq_addItem (prods : List (Nat × Product)) (uid pid : Nat) (q : Int)
    (cs : List (Nat × Cart)) (h : CartsUniq cs) :
    CartsUniq (addItem uid pid q ⟨prods, cs⟩).2.carts := by
  cases hp : lookupKey prods pid with
  | none => simpa [addItem, hp] using h
  | some p =>
      cases hact : p.isActive with
      | false => simpa [addItem, hp, hact] using h
      | true =>
          by_cases hs : p.stock < q
          · simpa [addItem, hp, hact, hs] using h
          · have hcU := cartUniq_stored cs uid h
            cases hf : findLineQty ((lookupKey cs uid).getD ⟨[]⟩).items pid with
            | some oldq =>
                by_cases hs2 : p.stock < oldq + q
                · simpa [addItem, hp, hact, hs, hf, hs2] using h
                · simpa [addItem, hp, hact, hs, hf, hs2] using
                    cartsUniq_putKey cs uid _ h (cartUniq_setLine _ pid (oldq + q) hcU)
            | none =>
                simpa [addItem, hp, hact, hs, hf] using
                  cartsUniq_putKey cs uid _ h (cartUniq_append _ pid q hcU hf)

theorem cartsUniq_updateItem (prods : List (Nat × Product)) (uid pid : Nat) (q : Int)
    (cs : List (Nat × Cart)) (h : CartsUniq cs) :
    CartsUniq (updateItem uid pid q ⟨prods, cs⟩).2.carts := by
  by_cases hneg : q < 0
  · simpa [updateItem, hneg] using h
  · cases hp : lookupKey prods pid with
    | none => simpa [updateItem, hneg, hp] using h
    | some p =>
        cases hact : p.isActive with
        | false => simpa [updateItem, hneg, hp, hact] using h
        | true =>
            cases hc : lookupKey cs uid with
            | none => simpa [updateItem, hneg, hp, hact, hc] using h
            | some c =>
                have hcU : CartUniq c := h (uid, c) (lookupKey_mem cs uid c hc)
                cases hf : findLineQty c.items pid with
                | none => simpa [updateItem, hneg, hp, hact, hc, hf] using h
                | some oldq =>
                    by_cases hz : q = 0
                    · simpa [updateItem, hneg, hp, hact, hc, hf, hz] using
                        cartsUniq_putKey cs uid _ h (cartUniq_removeLine c pid hcU)
                    · by_cases hs : p.stock < q
                      · simpa [updateItem, hneg, hp, hact, hc, hf, hz, hs] using h
                      · simpa [updateItem, hneg, hp, hact, hc, hf, hz, hs] using
                          cartsUniq_putKey cs uid _ h (cartUniq_setLine c pid q hcU)

theorem cartsUniq_removeItem (prods : List (Nat × Product)) (uid pid : Nat)
    (cs : List (Nat × Cart)) (h : CartsUniq cs) :
    CartsUniq (removeItem uid pid ⟨prods, cs⟩).2.carts := by
  cases hc : lookupKey cs uid with
  | none => simpa [removeItem, hc] using h
  | some c =>
      have hcU : CartUniq c := h (uid, c) (lookupKey_mem cs uid c hc)
      cases hf : findLineQty c.items pid with
      | none => simpa [removeItem, hc, hf] using h
      | some oldq =>
          simpa [removeItem, hc, hf] using
            cartsUniq_putKey cs uid _ h (cartUniq_removeLine c pid hcU)

theorem cartsUniq_clearCart (prods : List (Nat × Product)) (uid : Nat)
    (cs : List (Nat × Cart)) (h : CartsUniq cs) :
    CartsUniq (clearCart uid ⟨prods, cs⟩).2.carts := by
  intro e he
  exact h e (mem_delKey cs uid e he)

theorem cartsUniq_of_reach (cs : List (Nat × Cart)) (h : CartReach cs) :
    CartsUniq cs := by
  induction h with
  | init => intro e he; simp at he
  | add prods uid pid q hr ih => exact cartsUniq_addItem prods uid pid q _ ih
  | update prods uid pid q hr ih => exact cartsUniq_updateItem prods uid pid q _ ih
  | remove prods uid pid hr ih => exact cartsUniq_removeItem prods uid pid _ ih
  | clear prods uid hr ih => exact cartsUniq_clearCart prods uid _ ih

/-- C7 counterexample: from the empty cache, a single `addItem` call with
quantity `0` (which no guard rejects, since `product.stock < 0` is false for a
product in stock) reaches a stored cart whose line has quantity `0` — so the
claimed invariant "every line has quantity strictly greater than 0" does not
hold for every reachable state. -/
theorem claimC7_counterexample :
    ∃ cs, CartReach cs ∧ ∃ c, lookupKey cs 0 = some c ∧
      ¬ (∀ it ∈ c.items, 0 < it.quantity) := by
  refine ⟨(addItem 0 1 0 ⟨[(1, ⟨"A", 1, 5, true, ""⟩)], []⟩).2.carts,
    CartReach.add [(1, ⟨"A", 1, 5, true, ""⟩)] 0 1 0 CartReach.init,
    ⟨[⟨1, 0⟩]⟩, rfl, ?_⟩
  intro hall
  have h0 := hall ⟨1, 0⟩ (by simp)
  simp at h0

/-- C7 (amended), both scopes.  First conjunct: in every cart state reachable
from the empty cache by `addItem` / `updateItem` / `removeItem` / `clearCart`
with arbitrary inputs, no two lines of a stored cart share a product id.
Second conjunct: when additionally every `addItem` step uses a strictly
positive quantity, every stored line also has quantity strictly greater
than 0.  (Without that proviso the quantity bound fails — `addItem` has no
positivity guard — see the counterexample.) -/
theorem claimC7_invariant :
    (∀ cs, CartReach cs → ∀ uid c, lookupKey cs uid = some c →
      (c.items.map (fun it => it.product)).Nodup) ∧
    (∀ cs, CartReachPos cs → ∀ uid c, lookupKey cs uid = some c →
      (∀ it ∈ c.items, 0 < it.quantity) ∧
      (c.items.map (fun it => it.product)).Nodup) :=
  ⟨fun cs h uid c hc => cartsUniq_of_reach cs h (uid, c) (lookupKey_mem cs uid c hc),
   fun cs h uid c hc => cartsOK_of_reachPos cs h (uid, c) (lookupKey_mem cs uid c hc)⟩

/-- Witness for C7 at concrete reachable states: a quantity-0 add still yields
unique product ids (first conjunct, arbitrary inputs), and one positive add
yields a cart satisfying the full invariant (second conjunct). -/
theorem claimC7_invariant_witness :
    ((Cart.mk [⟨1, 0⟩]).items.map (fun it => it.product)).Nodup ∧
    ((∀ it ∈ (Cart.mk [⟨1, 2⟩]).items, 0 < it.quantity) ∧
     ((Cart.mk [⟨1, 2⟩]).items.map (fun it => it.product)).Nodup) :=
  ⟨claimC7_invariant.1 (addItem 0 1 0 ⟨[(1, ⟨"A", 1, 5, true, ""⟩)], []⟩).2.carts
     (CartReach.add [(1, ⟨"A", 1, 5, true, ""⟩)] 0 1 0 CartReach.init)
     0 ⟨[⟨1, 0⟩]⟩ rfl,
   claimC7_invariant.2 (addItem 0 1 2 ⟨[(1, ⟨"A", 1, 5, true, ""⟩)], []⟩).2.carts
     (CartReachPos.add [(1, ⟨"A", 1, 5, true, ""⟩)] 0 1 2 (by decide) CartReachPos.init)
     0 ⟨[⟨1, 2⟩]⟩ rfl⟩

/-! ## Order fulfillment (`src/unnamed/part_000`) -/

/-- One order line as built by the create-order loop: product id, quantity,
price snapshot, name and first image at purchase time. -/
structure OrderItem where
  product : Nat
  quantity : Int
  price : ℚ
  name : String
  image : String
deriving Repr, DecidableEq

/-- Modelled from the spec: the mongoose `Order` schema (`models/Order.js`) is
not part of the provided sources; per the spec an order persists the user, the
line snapshots, the four money fields, a `status ∈ pending/shipped/delivered/
cancelled` defaulting to `pending` at creation, and delivery/cancellation
timestamps.  Status is kept as a string, as the route code compares string
literals. -/
structure Order where
  user : Nat
  items : List OrderItem
  shippingAddress : String
  paymentMethod : String
  subtotal : ℚ
  tax : ℚ
  shippingCost : ℚ
  total : ℚ
  orderStatus : String
  cancelledAt : Option Nat
  deliveredAt : Option Nat
  cancellationReason : Option String
deriving Repr, DecidableEq

/-- A Neo4j interaction edge as written by `createUserInteraction`. -/
structure Interaction where
  user : Nat
  product : Nat
  itype : String
  timestamp : Nat
deriving Repr, DecidableEq

/-- State visible to the order routes: products and orders in Mongo, carts in
Redis, interaction edges in Neo4j, plus a fresh-id counter for created
orders. -/
structure Shop where
  products : List (Nat × Product)
  orders : List (Nat × Order)
  carts : List (Nat × Cart)
  edges : List Interaction
  nextOrderId : Nat
deriving Repr, DecidableEq

/-- A requested order line from the request body. -/
structure ReqItem where
  product : Nat
  quantity : Int
deriving Repr, DecidableEq

/-- Error outcomes of the order routes: 400 for an empty item list, 404 for a
missing product or order, 400 "Insufficient stock" per line, 403 for a foreign
order, 400 "cannot be cancelled" for the status guard. -/
inductive OrderError where
  | emptyOrder
  | notFound (pid : Nat)
  | insufficientStock (pid : Nat)
  | orderNotFound
  | forbidden
  | invalidState
deriving Repr, DecidableEq

/-- The item loop of POST `/api/orders` (`src/unnamed/part_000` lines 28-71):
for each requested line in order, fetch the product (404 if missing), check
`product.stock < quantity` (400 if so), accumulate the subtotal and the line
snapshot, decrement and save the product's stock, and append a `PURCHASED`
interaction edge.  A failing line aborts the loop at once, but the state
mutations already performed for earlier lines remain. -/
def processItems (uid now : Nat) :
    List ReqItem → ℚ → List OrderItem → Shop → Except OrderError (ℚ × List OrderItem) × Shop
  | [], sub, acc, st => (.ok (sub, acc), st)
  | it :: rest, sub, acc, st =>
    match lookupKey st.products it.product with
    | none => (.error (.notFound it.product), st)
    | some p =>
      if p.stock < it.quantity then (.error (.insufficientStock it.product), st)
      else
        let st1 := { st with
          products := setKey st.products it.product { p with stock := p.stock - it.quantity },
          edges := st.edges ++ [⟨uid, it.product, "PURCHASED", now⟩] }
        processItems uid now rest (sub + p.price * (it.quantity : ℚ))
          (acc ++ [⟨it.product, it.quantity, p.price, p.name, p.image⟩]) st1

/-- POST `/api/orders` (`src/unnamed/part_000` lines 13-104): reject an empty
item list, run the item loop, then compute `tax = subtotal * 0.08`,
`shippingCost = subtotal > 100 ? 0 : 10`, `total = subtotal + tax +
shippingCost`, persist the order with status `pending`, and delete the user's
cart from Redis. -/
def createOrder (uid now : Nat) (items : List ReqItem) (sa pm : String) (st : Shop) :
    Except OrderError Order × Shop :=
  if items.isEmpty then (.error .emptyOrder, st)
  else
    match processItems uid now items 0 [] st with
    | (.error e, st1) => (.error e, st1)
    | (.ok (subtotal, orderItems), st1) =>
        let tax := subtotal * (8 / 100)
        let shippingCost : ℚ := if subtotal > 100 then 0 else 10
        let total := subtotal + tax + shippingCost
        let order : Order :=
          ⟨uid, orderItems, sa, pm, subtotal, tax, shippingCost, total,
           "pending", none, none, none⟩
        let st2 := { st1 with
          orders := st1.orders ++ [(st1.nextOrderId, order)],
          nextOrderId := st1.nextOrderId + 1,
          carts := delKey st1.carts uid }
        (.ok order, st2)

/-- The stock-restoration loop of PUT `/api/orders/:id/cancel`
(`src/unnamed/part_000` lines 266-273): for each order line whose product
still exists, add the line quantity back and save. -/
def restoreStock : List OrderItem → List (Nat × Product) → List (Nat × Product)
  | [], ps => ps
  | it :: rest, ps =>
    match lookupKey ps it.product with
    | none => restoreStock rest ps
    | some p => restoreStock rest (setKey ps it.product { p with stock := p.stock + it.quantity })

/-- PUT `/api/orders/:id/cancel` (`src/unnamed/part_000` lines 237-296): 404
if the order is missing, 403 if it belongs to another user, 400 if its status
is shipped, delivered or already cancelled; otherwise restore stock for every
line, set status to `cancelled`, stamp `cancelledAt`, record the optional
reason, and save. -/
def cancelOrder (uid oid now : Nat) (reason : Option String) (st : Shop) :
    Except OrderError Order × Shop :=
  match lookupKey st.orders oid with
  | none => (.error .orderNotFound, st)
  | some od =>
    if od.user ≠ uid then (.error .forbidden, st)
    else if od.orderStatus = "shipped" ∨ od.orderStatus = "delivered" ∨
        od.orderStatus = "cancelled" then
      (.error .invalidState, st)
    else
      let od2 : Order := { od with
        orderStatus := "cancelled",
        cancelledAt := some now,
        cancellationReason := match reason with
          | some r => some r
          | none => od.cancellationReason }
      (.ok od2, { st with
        products := restoreStock od.items st.products,
        orders := setKey st.orders oid od2 })

/-- Total quantity requested for `pid` across the requested lines. -/
def reqQty : List ReqItem → Nat → Int
  | [], _ => 0
  | it :: rest, pid => (if it.product = pid then it.quantity else 0) + reqQty rest pid

/-- Total quantity for `pid` across the persisted order lines. -/
def orderedQty : List OrderItem → Nat → Int
  | [], _ => 0
  | it :: rest, pid => (if it.product = pid then it.quantity else 0) + orderedQty rest pid

theorem prod_sub_comp (p : Product) (a b : Int) :
    ({ ({ p with stock := p.stock - a }) with
        stock := ({ p with stock := p.stock - a } : Product).stock - b })
      = { p with stock := p.stock - (a + b) } := by
  rcases p with ⟨n, pr, s, ia, im⟩
  simp only [Product.mk.injEq, and_true, true_and]
  ring

theorem prod_sub_zero (p : Product) : ({ p with stock := p.stock - 0 }) = p := by
  rcases p with ⟨n, pr, s, ia, im⟩
  simp

theorem prod_add_comp (p : Product) (a b : Int) :
    ({ ({ p with stock := p.stock + a }) with
        stock := ({ p with stock := p.stock + a } : Product).stock + b })
      = { p with stock := p.stock + (a + b) } := by
  rcases p with ⟨n, pr, s, ia, im⟩
  simp only [Product.mk.injEq, and_true, true_and]
  ring

theorem prod_add_zero (p : Product) : ({ p with stock := p.stock + 0 }) = p := by
  rcases p with ⟨n, pr, s, ia, im⟩
  simp

theorem processItems_frame (uid now : Nat) :
    ∀ (items : List ReqItem) (sub : ℚ) (acc : List OrderItem) (st : Shop),
      (processItems uid now items sub acc st).2.orders = st.orders ∧
      (processItems uid now items sub acc st).2.carts = st.carts ∧
      (processItems uid now items sub acc st).2.nextOrderId = st.nextOrderId := by
  intro items
  induction items with
  | nil => intro sub acc st; simp [processItems]
  | cons it rest ih =>
      intro sub acc st
      cases hp : lookupKey st.products it.product with
      | none => simp [processItems, hp]
      | some p =>
          by_cases hs : p.stock < it.quantity
          · simp [processItems, hp, hs]
          · simp only [processItems, hp, hs, if_false, ite_false]
            exact ih _ _ _

theorem processItems_err_shape (uid now : Nat) :
    ∀ (items : List ReqItem) (sub : ℚ) (acc : List OrderItem) (st : Shop)
      (e : OrderError) (st1 : Shop),
      processItems uid now items sub acc st = (.error e, st1) →
      ∃ pid, e = .notFound pid ∨ e = .insufficientStock pid := by
  intro items
  induction items with
  | nil => intro sub acc st e st1 h; simp [processItems] at h
  | cons it rest ih =>
      intro sub acc st e st1 h
      cases hp : lookupKey st.products it.product with
      | none =>
          simp [processItems, hp] at h
          exact ⟨it.product, Or.inl h.1.symm⟩
      | some p =>
          by_cases hs : p.stock < it.quantity
          · simp [processItems, hp, hs] at h
            exact ⟨it.product, Or.inr h.1.symm⟩
          · simp only [processItems, hp, hs, if_false, ite_false] at h
            exact ih _ _ _ _ _ h

theorem processItems_ok (uid now : Nat) :
    ∀ (items : List ReqItem) (sub : ℚ) (acc : List OrderItem) (st : Shop)
      (out : ℚ × List OrderItem) (st1 : Shop),
      processItems uid now items sub acc st = (.ok out, st1) →
      ∃ extra,
        out.2 = acc ++ extra ∧
        out.1 = sub + (extra.map (fun oi => oi.price * (oi.quantity : ℚ))).sum ∧
        extra.map (fun oi => (oi.product, oi.quantity))
          = items.map (fun it => (it.product, it.quantity)) ∧
        (∀ pid, lookupKey st1.products pid =
          (lookupKey st.products pid).map
            (fun p => { p with stock := p.stock - reqQty items pid })) ∧
        (∀ oi ∈ extra, ∃ p, lookupKey st.products oi.product = some p ∧
          oi.price = p.price ∧ oi.name = p.name ∧ oi.image = p.image) := by
  intro items
  induction items with
  | nil =>
      intro sub acc st out st1 h
      simp only [processItems, Prod.mk.injEq] at h
      obtain ⟨h1, h2⟩ := h
      have h1b : (sub, acc) = out := by injection h1
      subst h1b
      subst h2
      refine ⟨[], by simp, by simp, by simp, ?_, ?_⟩
      · intro pid
        cases hp : lookupKey st.products pid with
        | none => simp [reqQty, hp]
        | some p => simp [reqQty, hp, prod_sub_zero]
      · intro oi hoi; simp at hoi
  | cons it rest ih =>
      intro sub acc st out st1 h
      cases hp : lookupKey st.products it.product with
      | none => simp [processItems, hp] at h
      | some p =>
          by_cases hs : p.stock < it.quantity
          · simp [processItems, hp, hs] at h
          · simp only [processItems, hp, hs, if_false, ite_false] at h
            obtain ⟨extra, he1, he2, he3, he4, he5⟩ := ih _ _ _ _ _ h
            refine ⟨⟨it.product, it.quantity, p.price, p.name, p.image⟩ :: extra,
              ?_, ?_, ?_, ?_, ?_⟩
            · rw [he1]; simp
            · rw [he2]; simp [add_assoc]
            · simp [he3]
            · intro pid
              have h4 := he4 pid
              rw [h4]
              rw [show ({ st with
                    products := setKey st.products it.product { p with stock := p.stock - it.quantity },
                    edges := st.edges ++ [⟨uid, it.product, "PURCHASED", now⟩] } : Shop).products
                  = setKey st.products it.product { p with stock := p.stock - it.quantity } from rfl]
              by_cases hpe : pid = it.product
              · rw [hpe]
                rw [lookupKey_setKey_self st.products it.product _ p hp, hp]
                simp only [Option.map_some']
                rw [prod_sub_comp]
                have hr : reqQty (it :: rest) it.product
                    = it.quantity + reqQty rest it.product := by
                  simp [reqQty]
                rw [hr]
              · rw [lookupKey_setKey_ne st.products it.product pid _ hpe]
                have hne2 : ¬ it.product = pid := fun hh => hpe hh.symm
                simp [reqQty, hne2]
            · intro oi hoi
              rcases List.mem_cons.mp hoi with hoi | hoi
              · rw [hoi]
                exact ⟨p, hp, rfl, rfl, rfl⟩
              · obtain ⟨p2, hp2, hpr, hnm, him⟩ := he5 oi hoi
                rw [show ({ st with
                      products := setKey st.products it.product { p with stock := p.stock - it.quantity },
                      edges := st.edges ++ [⟨uid, it.product, "PURCHASED", now⟩] } : Shop).products
                    = setKey st.products it.product { p with stock := p.stock - it.quantity } from rfl]
                  at hp2
                by_cases hpe : oi.product = it.product
                · rw [hpe] at hp2
                  rw [lookupKey_setKey_self st.products it.product _ p hp] at hp2
                  cases hp2
                  refine ⟨p, by rw [hpe]; exact hp, ?_, ?_, ?_⟩
                  · rw [hpr]
                  · rw [hnm]
                  · rw [him]
                · rw [lookupKey_setKey_ne st.products it.product oi.product _ hpe] at hp2
                  exact ⟨p2, hp2, hpr, hnm, him⟩

theorem restoreStock_lookup :
    ∀ (items : List OrderItem) (ps : List (Nat × Product)) (pid : Nat),
      lookupKey (restoreStock items ps) pid =
        (lookupKey ps pid).map (fun p => { p with stock := p.stock + orderedQty items pid }) := by
  intro items
  induction items with
  | nil =>
      intro ps pid
      cases hp : lookupKey ps pid with
      | none => simp [restoreStock, hp, orderedQty]
      | some p => simp [restoreStock, hp, orderedQty, prod_add_zero]
  | cons it rest ih =>
      intro ps pid
      cases hp : lookupKey ps it.product with
      | none =>
          have hstep : restoreStock (it :: rest) ps = restoreStock rest ps := by
            simp [restoreStock, hp]
          rw [hstep, ih]
          by_cases hpe : pid = it.product
          · rw [hpe, hp]
            simp
          · have hne2 : ¬ it.product = pid := fun hh => hpe hh.symm
            have hq : orderedQty (it :: rest) pid = orderedQty rest pid := by
              simp [orderedQty, hne2]
            rw [hq]
      | some p =>
          have hstep : restoreStock (it :: rest) ps
              = restoreStock rest (setKey ps it.product { p with stock := p.stock + it.quantity }) := by
            simp [restoreStock, hp]
          rw [hstep, ih]
          by_cases hpe : pid = it.product
          · rw [hpe]
            rw [lookupKey_setKey_self ps it.product _ p hp, hp]
            simp only [Option.map_some']
            rw [prod_add_comp]
            have hr : orderedQty (it :: rest) it.product
                = it.quantity + orderedQty rest it.product := by
              simp [orderedQty]
            rw [hr]
          · rw [lookupKey_setKey_ne ps it.product pid _ hpe]
            have hne2 : ¬ it.product = pid := fun hh => hpe hh.symm
            simp [orderedQty, hne2]

theorem createOrder_of_processItems_error (uid now : Nat) (items : List ReqItem)
    (sa pm : String) (st : Shop) (e2 : OrderError) (st2 : Shop)
    (hemp : items.isEmpty = false)
    (hpi : processItems uid now items 0 [] st = (.error e2, st2)) :
    createOrder uid now items sa pm st = (.error e2, st2) := by
  simp only [createOrder, hemp, Bool.false_eq_true, if_false, ite_false]
  rw [hpi]

/-- The order record built by the totals step of POST `/api/orders` from the
loop's subtotal and line snapshots. -/
def mkOrder (uid : Nat) (sa pm : String) (sub2 : ℚ) (acc2 : List OrderItem) : Order :=
  ⟨uid, acc2, sa, pm, sub2, sub2 * (8 / 100), if sub2 > 100 then (0 : ℚ) else 10,
   sub2 + sub2 * (8 / 100) + (if sub2 > 100 then (0 : ℚ) else 10),
   "pending", none, none, none⟩

theorem createOrder_of_processItems_ok (uid now : Nat) (items : List ReqItem)
    (sa pm : String) (st : Shop) (sub2 : ℚ) (acc2 : List OrderItem) (st2 : Shop)
    (hemp : items.isEmpty = false)
    (hpi : processItems uid now items 0 [] st = (.ok (sub2, acc2), st2)) :
    createOrder uid now items sa pm st =
      (.ok (mkOrder uid sa pm sub2 acc2),
       { st2 with orders := st2.orders ++ [(st2.nextOrderId, mkOrder uid sa pm sub2 acc2)],
                  nextOrderId := st2.nextOrderId + 1,
                  carts := delKey st2.carts uid }) := by
  simp only [createOrder, hemp, Bool.false_eq_true, if_false, ite_false]
  rw [hpi]
  rfl

/-- A catalogue with one product of stock 5, a stored cart for user 7, no
orders and no edges: product 2 requested below does not exist. -/
def c1St : Shop :=
  ⟨[(1, ⟨"A", 10, 5, true, ""⟩)], [], [(7, ⟨[⟨1, 1⟩]⟩)], [], 0⟩

/-- The state left behind by the failing create-order call on `c1St`. -/
def c1After : Shop :=
  ⟨[(1, ⟨"A", 10, 4, true, ""⟩)], [], [(7, ⟨[⟨1, 1⟩]⟩)], [⟨7, 1, "PURCHASED", 0⟩], 0⟩

/-- C1 counterexample: an order whose second line references a missing product
fails with `NotFound`, but by then the first line's stock decrement (5 to 4)
and its `PURCHASED` interaction edge have already been performed — the item
loop validates and mutates per line, so validation is not all-or-nothing
before mutation. -/
theorem claimC1_counterexample :
    (createOrder 7 0 [⟨1, 1⟩, ⟨2, 1⟩] "s" "p" c1St).1 = .error (.notFound 2) ∧
    lookupKey (createOrder 7 0 [⟨1, 1⟩, ⟨2, 1⟩] "s" "p" c1St).2.products 1
      = some ⟨"A", 10, 4, true, ""⟩ ∧
    lookupKey c1St.products 1 = some ⟨"A", 10, 5, true, ""⟩ ∧
    (createOrder 7 0 [⟨1, 1⟩, ⟨2, 1⟩] "s" "p" c1St).2.edges = [⟨7, 1, "PURCHASED", 0⟩] ∧
    c1St.edges = [] :=
  ⟨rfl, rfl, rfl, rfl, rfl⟩

/-- C1 (amended): when order creation fails, the error is `NotFound` or
`InsufficientStock` (judged per line, in input order, against the stock as
already decremented by the preceding lines) or the empty-order rejection, and
no order has been persisted, the cart has not been deleted and the order-id
counter is untouched; however, stock decrements and interaction-edge writes
performed for lines preceding the failing line persist. -/
theorem claimC1_create_error (uid now : Nat) (items : List ReqItem) (sa pm : String)
    (st : Shop) (e : OrderError) (st1 : Shop)
    (h : createOrder uid now items sa pm st = (.error e, st1)) :
    st1.orders = st.orders ∧ st1.carts = st.carts ∧ st1.nextOrderId = st.nextOrderId ∧
    (e = .emptyOrder ∨ ∃ pid, e = .notFound pid ∨ e = .insufficientStock pid) := by
  by_cases hemp : items.isEmpty
  · simp only [createOrder, hemp, if_true, ite_true, Prod.mk.injEq] at h
    obtain ⟨he, hst⟩ := h
    have he2 : OrderError.emptyOrder = e := by injection he
    subst hst
    exact ⟨rfl, rfl, rfl, Or.inl he2.symm⟩
  · rw [Bool.not_eq_true] at hemp
    have hfr := processItems_frame uid now items 0 [] st
    cases hpi : processItems uid now items 0 [] st with
    | mk r st2 =>
        rw [hpi] at hfr
        cases r with
        | error e2 =>
            rw [createOrder_of_processItems_error uid now items sa pm st e2 st2 hemp hpi] at h
            rw [Prod.mk.injEq] at h
            obtain ⟨he, hst⟩ := h
            have he2 : e2 = e := by injection he
            subst he2
            subst hst
            exact ⟨hfr.1, hfr.2.1, hfr.2.2,
              Or.inr (processItems_err_shape uid now items 0 [] st e2 _ hpi)⟩
        | ok out =>
            obtain ⟨sub2, acc2⟩ := out
            rw [createOrder_of_processItems_ok uid now items sa pm st sub2 acc2 st2 hemp hpi] at h
            rw [Prod.mk.injEq] at h
            exact absurd h.1 (by simp)

/-- Witness for C1 at the concrete failing input of the counterexample. -/
theorem claimC1_create_error_witness :
    c1After.orders = c1St.orders ∧ c1After.carts = c1St.carts ∧
    c1After.nextOrderId = c1St.nextOrderId ∧
    (OrderError.notFound 2 = .emptyOrder ∨
      ∃ pid, OrderError.notFound 2 = .notFound pid ∨
        OrderError.notFound 2 = .insufficientStock pid) :=
  claimC1_create_error 7 0 [⟨1, 1⟩, ⟨2, 1⟩] "s" "p" c1St (.notFound 2) c1After rfl

/-- The catalogue and empty state of the spec's order-totals example:
product 1 at price 10 with stock 2, product 2 at price 5 with stock 3. -/
def c6St : Shop :=
  ⟨[(1, ⟨"A", 10, 2, true, ""⟩), (2, ⟨"B", 5, 3, true, ""⟩)], [], [], [], 0⟩

/-- The subtotal as accumulated by the item loop on the example order
(price 10 times quantity 2, then price 5 times quantity 3). -/
def c6Sub : ℚ := 0 + 10 * ((2 : Int) : ℚ) + 5 * ((3 : Int) : ℚ)

/-- C6: every successfully created order satisfies `subtotal = Σ price ×
quantity` over its line snapshots, `tax = subtotal × 0.08`, `shippingCost = 0
iff subtotal > 100 else 10`, `total = subtotal + tax + shippingCost`; each
line's price snapshot is the product's price at creation time; every
product's stock decreases by exactly the total quantity ordered for it; and
the 10.00×2 + 5.00×3 example yields subtotal 35, tax 2.80 (= 14/5), shipping
10 and total 47.80 (= 239/5) with both stocks decremented to 0. -/
theorem claimC6_totals (uid now : Nat) (items : List ReqItem) (sa pm : String)
    (st : Shop) (od : Order) (st1 : Shop)
    (h : createOrder uid now items sa pm st = (.ok od, st1)) :
    (od.subtotal = (od.items.map (fun oi => oi.price * (oi.quantity : ℚ))).sum ∧
    od.tax = od.subtotal * (8 / 100) ∧
    od.shippingCost = (if od.subtotal > 100 then (0 : ℚ) else 10) ∧
    od.total = od.subtotal + od.tax + od.shippingCost ∧
    od.items.map (fun oi => (oi.product, oi.quantity))
      = items.map (fun it => (it.product, it.quantity)) ∧
    (∀ oi ∈ od.items, ∃ p, lookupKey st.products oi.product = some p ∧
      oi.price = p.price ∧ oi.name = p.name) ∧
    (∀ pid, lookupKey st1.products pid =
      (lookupKey st.products pid).map
        (fun p => { p with stock := p.stock - reqQty items pid }))) ∧
    ((createOrder 0 0 [⟨1, 2⟩, ⟨2, 3⟩] "s" "p" c6St).1 =
        .ok (mkOrder 0 "s" "p" c6Sub [⟨1, 2, 10, "A", ""⟩, ⟨2, 3, 5, "B", ""⟩]) ∧
    (mkOrder 0 "s" "p" c6Sub [⟨1, 2, 10, "A", ""⟩, ⟨2, 3, 5, "B", ""⟩]).subtotal = 35 ∧
    (mkOrder 0 "s" "p" c6Sub [⟨1, 2, 10, "A", ""⟩, ⟨2, 3, 5, "B", ""⟩]).tax = 14 / 5 ∧
    (mkOrder 0 "s" "p" c6Sub [⟨1, 2, 10, "A", ""⟩, ⟨2, 3, 5, "B", ""⟩]).shippingCost = 10 ∧
    (mkOrder 0 "s" "p" c6Sub [⟨1, 2, 10, "A", ""⟩, ⟨2, 3, 5, "B", ""⟩]).total = 239 / 5 ∧
    lookupKey (createOrder 0 0 [⟨1, 2⟩, ⟨2, 3⟩] "s" "p" c6St).2.products 1
      = some ⟨"A", 10, 0, true, ""⟩ ∧
    lookupKey (createOrder 0 0 [⟨1, 2⟩, ⟨2, 3⟩] "s" "p" c6St).2.products 2
      = some ⟨"B", 5, 0, true, ""⟩) := by
  constructor
  · by_cases hemp : items.isEmpty
    · simp [createOrder, hemp] at h
    · rw [Bool.not_eq_true] at hemp
      cases hpi : processItems uid now items 0 [] st with
      | mk r st2 =>
          cases r with
          | error e2 =>
              rw [createOrder_of_processItems_error uid now items sa pm st e2 st2 hemp hpi] at h
              rw [Prod.mk.injEq] at h
              exact absurd h.1 (by simp)
          | ok out =>
              obtain ⟨sub2, acc2⟩ := out
              rw [createOrder_of_processItems_ok uid now items sa pm st sub2 acc2 st2 hemp hpi] at h
              rw [Prod.mk.injEq] at h
              obtain ⟨he, hst⟩ := h
              have hoe : mkOrder uid sa pm sub2 acc2 = od := by injection he
              obtain ⟨extra, he1, he2, he3, he4, he5⟩ :=
                processItems_ok uid now items 0 [] st (sub2, acc2) st2 hpi
              simp only at he1 he2
              rw [List.nil_append] at he1
              subst he1
              rw [zero_add] at he2
              subst hoe
              refine ⟨he2, rfl, rfl, rfl, he3, ?_, ?_⟩
              · intro oi hoi
                obtain ⟨p, hp, h1, h2, _⟩ := he5 oi hoi
                exact ⟨p, hp, h1, h2⟩
              · intro pid
                rw [← hst]
                exact he4 pid
  · have hsub : c6Sub = 35 := by
      unfold c6Sub
      push_cast
      norm_num
    have hng : ¬ c6Sub > 100 := by rw [hsub]; norm_num
    refine ⟨rfl, ?_, ?_, ?_, ?_, rfl, rfl⟩
    · show c6Sub = 35
      exact hsub
    · show c6Sub * (8 / 100) = 14 / 5
      rw [hsub]; norm_num
    · show (if c6Sub > 100 then (0 : ℚ) else 10) = 10
      rw [if_neg hng]
    · show c6Sub + c6Sub * (8 / 100) + (if c6Sub > 100 then (0 : ℚ) else 10) = 239 / 5
      rw [if_neg hng, hsub]; norm_num

/-- Witness for C6 at the example input: tax is 8% of the subtotal and the
shipping threshold is applied to the created order. -/
theorem claimC6_totals_witness :
    (mkOrder 0 "s" "p" c6Sub [⟨1, 2, 10, "A", ""⟩, ⟨2, 3, 5, "B", ""⟩]).tax
      = (mkOrder 0 "s" "p" c6Sub [⟨1, 2, 10, "A", ""⟩, ⟨2, 3, 5, "B", ""⟩]).subtotal
          * (8 / 100) :=
  ((claimC6_totals 0 0 [⟨1, 2⟩, ⟨2, 3⟩] "s" "p" c6St
      (mkOrder 0 "s" "p" c6Sub [⟨1, 2, 10, "A", ""⟩, ⟨2, 3, 5, "B", ""⟩])
      ((createOrder 0 0 [⟨1, 2⟩, ⟨2, 3⟩] "s" "p" c6St).2) rfl).1).2.1

/-- C5: cancelling an order succeeds iff its status is none of shipped,
delivered, cancelled (given the order exists and belongs to the requesting
user); on success every product's stock grows by exactly the total quantity
the order's lines hold for it, the order's status becomes `cancelled` and
`cancelledAt` is stamped, with the lines themselves unchanged; on a shipped,
delivered or already-cancelled order it fails with `InvalidState` and the
whole state — orders and product stocks included — is unchanged. -/
theorem claimC5_cancel (uid oid now : Nat) (reason : Option String) (st : Shop)
    (od : Order) (hod : lookupKey st.orders oid = some od) (huser : od.user = uid) :
    ((od.orderStatus = "shipped" ∨ od.orderStatus = "delivered" ∨
        od.orderStatus = "cancelled") →
      cancelOrder uid oid now reason st = (.error .invalidState, st)) ∧
    (od.orderStatus ≠ "shipped" → od.orderStatus ≠ "delivered" →
      od.orderStatus ≠ "cancelled" →
      ∃ od2, cancelOrder uid oid now reason st =
          (.ok od2, { st with products := restoreStock od.items st.products,
                              orders := setKey st.orders oid od2 }) ∧
        od2.orderStatus = "cancelled" ∧ od2.cancelledAt = some now ∧
        od2.items = od.items ∧
        (∀ pid, lookupKey (restoreStock od.items st.products) pid =
          (lookupKey st.products pid).map
            (fun p => { p with stock := p.stock + orderedQty od.items pid }))) := by
  have hu : ¬ od.user ≠ uid := by simp [huser]
  constructor
  · intro hdisj
    simp only [cancelOrder, hod, hu, if_false, ite_false, if_pos hdisj, ite_true]
  · intro h1 h2 h3
    have hgd : ¬ (od.orderStatus = "shipped" ∨ od.orderStatus = "delivered" ∨
        od.orderStatus = "cancelled") := by
      rintro (h | h | h)
      · exact h1 h
      · exact h2 h
      · exact h3 h
    refine ⟨{ od with
      orderStatus := "cancelled",
      cancelledAt := some now,
      cancellationReason := (match reason with
        | some r => some r
        | none => od.cancellationReason) }, ?_, rfl, rfl, rfl, ?_⟩
    · simp only [cancelOrder, hod, hu, if_false, ite_false, hgd]
    · intro pid
      exact restoreStock_lookup od.items st.products pid

/-- A pending one-line order for user 0 on a product with stock 0, and the
same order already shipped. -/
def c5Order : Order :=
  ⟨0, [⟨1, 2, 10, "A", ""⟩], "s", "p", 20, 8 / 5, 10, 158 / 5, "pending",
   none, none, none⟩

def c5Shipped : Order :=
  ⟨0, [⟨1, 2, 10, "A", ""⟩], "s", "p", 20, 8 / 5, 10, 158 / 5, "shipped",
   none, none, none⟩

def c5St2 : Shop :=
  ⟨[(1, ⟨"A", 10, 0, true, ""⟩)], [(1, c5Shipped)], [], [], 2⟩

/-- Witness for C5 at a concrete input: cancelling a shipped order fails with
`InvalidState` and leaves the state unchanged. -/
theorem claimC5_cancel_witness :
    cancelOrder 0 1 7 none c5St2 = (.error .invalidState, c5St2) :=
  (claimC5_cancel 0 1 7 none c5St2 c5Shipped rfl rfl).1 (Or.inl rfl)

/-- An already-cancelled order for user 0 and a state holding only it. -/
def c3Order : Order :=
  ⟨0, [⟨1, 2, 10, "A", ""⟩], "s", "p", 20, 8 / 5, 10, 158 / 5, "cancelled",
   some 1, none, none⟩

def c3St : Shop :=
  ⟨[(1, ⟨"A", 10, 3, true, ""⟩)], [(1, c3Order)], [], [], 2⟩

/-- C3 counterexample: cancelling an already-cancelled order does NOT succeed
without error — the status guard answers 400, i.e. `InvalidState`. -/
theorem claimC3_counterexample :
    (cancelOrder 0 1 5 none c3St).1 = .error .invalidState := rfl

/-- C3 (amended): deleting the cart of a user who has none succeeds (the
route answers 200 and `DEL` on an absent key changes nothing), leaving the
whole state unchanged; cancelling an already-cancelled order also leaves all
observable state — order fields, timestamps and every product's stock —
unchanged, but it reports `InvalidState` instead of succeeding. -/
theorem claimC3_idempotence :
    (∀ uid (st : CartSys), lookupKey st.carts uid = none →
      clearCart uid st = (true, st)) ∧
    (∀ uid oid now reason (st : Shop) od, lookupKey st.orders oid = some od →
      od.user = uid → od.orderStatus = "cancelled" →
      cancelOrder uid oid now reason st = (.error .invalidState, st)) := by
  constructor
  · intro uid st h
    rcases st with ⟨ps, cs⟩
    simp only [clearCart, Prod.mk.injEq, true_and]
    simp only [CartSys.mk.injEq, and_true, true_and]
    exact delKey_of_lookup_none cs uid h
  · intro uid oid now reason st od hod huser hstat
    have hu : ¬ od.user ≠ uid := by simp [huser]
    simp only [cancelOrder, hod, hu, if_false, ite_false,
      if_pos (Or.inr (Or.inr hstat)), ite_true]

/-- Witness for C3 at concrete inputs: clearing a missing cart and cancelling
the cancelled order of `c3St`. -/
theorem claimC3_idempotence_witness :
    clearCart 3 (⟨[], []⟩ : CartSys) = (true, (⟨[], []⟩ : CartSys)) ∧
    cancelOrder 0 1 5 none c3St = (.error .invalidState, c3St) :=
  ⟨claimC3_idempotence.1 3 ⟨[], []⟩ rfl,
   claimC3_idempotence.2 0 1 5 none c3St c3Order rfl rfl rfl⟩

/-! ## Rate limiter (`src/services/redisService.js`, `checkRateLimit`) -/

/-- The Redis state seen by the rate limiter: integer counters and per-key
expiries, plus whether the client is reachable (`getClient()` returning null
or a command throwing models `connected = false`). -/
structure RLState where
  counters : List (String × Nat)
  expiries : List (String × Nat)
  connected : Bool
deriving Repr, DecidableEq

/-- Redis `INCR`: creates the key at 0 and increments, returning the
post-increment value — atomic at the backend. -/
def rlIncr (k : String) (st : RLState) : Nat × RLState :=
  ((lookupKey st.counters k).getD 0 + 1,
   { st with counters := putKey st.counters k ((lookupKey st.counters k).getD 0 + 1) })

/-- Redis `EXPIRE key w`. -/
def rlExpire (k : String) (w : Nat) (st : RLState) : RLState :=
  { st with expiries := putKey st.expiries k w }

/-- The method `RedisService.checkRateLimit` (lines 118-131): if the backend is
unreachable return `true` (fail open); otherwise `INCR` the key, set its
expiry to the window exactly when the post-increment value is 1, and allow
iff the value is at most the limit. -/
def checkRateLimit (k : String) (limit w : Nat) (st : RLState) : Bool × RLState :=
  if st.connected = false then (true, st)
  else
    let r := rlIncr k st
    (decide (r.1 ≤ limit), if r.1 = 1 then rlExpire k w r.2 else r.2)

/-- State after `n` successive `checkRateLimit` calls for the same key. -/
def rlCalls (k : String) (limit w : Nat) : Nat → RLState → RLState
  | 0, st => st
  | n + 1, st => rlCalls k limit w n (checkRateLimit k limit w st).2

theorem checkRateLimit_step (k : String) (limit w : Nat) (st : RLState)
    (hc : st.connected = true) :
    (checkRateLimit k limit w st).2.connected = true ∧
    lookupKey (checkRateLimit k limit w st).2.counters k
      = some ((lookupKey st.counters k).getD 0 + 1) ∧
    (checkRateLimit k limit w st).1
      = decide ((lookupKey st.counters k).getD 0 + 1 ≤ limit) := by
  have hc2 : ¬ st.connected = false := by rw [hc]; simp
  simp only [checkRateLimit, rlIncr, rlExpire]
  rw [if_neg hc2]
  by_cases h1 : (lookupKey st.counters k).getD 0 + 1 = 1
  · rw [if_pos h1]
    exact ⟨hc, lookupKey_putKey_self st.counters k _, rfl⟩
  · rw [if_neg h1]
    exact ⟨hc, lookupKey_putKey_self st.counters k _, rfl⟩

theorem rlCalls_counter (k : String) (limit w : Nat) :
    ∀ (n : Nat) (st : RLState), st.connected = true →
      (rlCalls k limit w n st).connected = true ∧
      ((lookupKey (rlCalls k limit w n st).counters k).getD 0
        = (lookupKey st.counters k).getD 0 + n) := by
  intro n
  induction n with
  | zero => intro st hc; exact ⟨hc, by simp [rlCalls]⟩
  | succ n ih =>
      intro st hc
      obtain ⟨hcs, hval, _⟩ := checkRateLimit_step k limit w st hc
      have h2 := ih (checkRateLimit k limit w st).2 hcs
      refine ⟨h2.1, ?_⟩
      rw [show rlCalls k limit w (n + 1) st
          = rlCalls k limit w n (checkRateLimit k limit w st).2 from rfl]
      rw [h2.2, hval]
      simp
      omega

/-- C2: when the backend is reachable, `checkRateLimit` increments exactly the
caller's counter (others untouched), sets the key's expiry to the window
exactly when the post-increment value is 1, and allows the request iff the
post-increment value is at most the limit; consequently, starting fresh, each
of the first `limit` calls within one window returns `true` and the
`(limit+1)`-th returns `false`; when the backend is unreachable the call
returns `true` and changes nothing (fail open). -/
theorem claimC2_rateLimit :
    (∀ (k : String) (limit w : Nat) (st : RLState), st.connected = true →
      lookupKey (checkRateLimit k limit w st).2.counters k
        = some ((lookupKey st.counters k).getD 0 + 1) ∧
      (∀ k2, k2 ≠ k → lookupKey (checkRateLimit k limit w st).2.counters k2
        = lookupKey st.counters k2) ∧
      ((checkRateLimit k limit w st).1 = true ↔
        (lookupKey st.counters k).getD 0 + 1 ≤ limit) ∧
      ((lookupKey st.counters k).getD 0 + 1 = 1 →
        lookupKey (checkRateLimit k limit w st).2.expiries k = some w) ∧
      ((lookupKey st.counters k).getD 0 + 1 ≠ 1 →
        (checkRateLimit k limit w st).2.expiries = st.expiries)) ∧
    (∀ (k : String) (limit w : Nat), 1 ≤ limit →
      (∀ n, n < limit →
        (checkRateLimit k limit w (rlCalls k limit w n ⟨[], [], true⟩)).1 = true) ∧
      (checkRateLimit k limit w (rlCalls k limit w limit ⟨[], [], true⟩)).1 = false) ∧
    (∀ (k : String) (limit w : Nat) (st : RLState), st.connected = false →
      checkRateLimit k limit w st = (true, st)) := by
  have hmain : ∀ (k : String) (limit w : Nat) (st : RLState), st.connected = true →
      lookupKey (checkRateLimit k limit w st).2.counters k
        = some ((lookupKey st.counters k).getD 0 + 1) ∧
      (∀ k2, k2 ≠ k → lookupKey (checkRateLimit k limit w st).2.counters k2
        = lookupKey st.counters k2) ∧
      ((checkRateLimit k limit w st).1 = true ↔
        (lookupKey st.counters k).getD 0 + 1 ≤ limit) ∧
      ((lookupKey st.counters k).getD 0 + 1 = 1 →
        lookupKey (checkRateLimit k limit w st).2.expiries k = some w) ∧
      ((lookupKey st.counters k).getD 0 + 1 ≠ 1 →
        (checkRateLimit k limit w st).2.expiries = st.expiries) := by
    intro k limit w st hc
    have hc2 : ¬ st.connected = false := by rw [hc]; simp
    obtain ⟨_, hval, hres⟩ := checkRateLimit_step k limit w st hc
    refine ⟨hval, ?_, ?_, ?_, ?_⟩
    · intro k2 hk2
      simp only [checkRateLimit, rlIncr, rlExpire]
      rw [if_neg hc2]
      by_cases h1 : (lookupKey st.counters k).getD 0 + 1 = 1
      · rw [if_pos h1]
        exact lookupKey_putKey_ne st.counters k k2 _ hk2
      · rw [if_neg h1]
        exact lookupKey_putKey_ne st.counters k k2 _ hk2
    · rw [hres]; simp
    · intro h1
      simp only [checkRateLimit, rlIncr, rlExpire]
      rw [if_neg hc2, if_pos h1]
      exact lookupKey_putKey_self st.expiries k w
    · intro h1
      simp only [checkRateLimit, rlIncr, rlExpire]
      rw [if_neg hc2, if_neg h1]
  refine ⟨hmain, ?_, ?_⟩
  · intro k limit w hlim
    constructor
    · intro n hn
      obtain ⟨hcs, hcount⟩ := rlCalls_counter k limit w n ⟨[], [], true⟩ rfl
      obtain ⟨_, _, hres⟩ := checkRateLimit_step k limit w _ hcs
      rw [hres, hcount]
      simp only [lookupKey, Option.getD_none]
      simp
      omega
    · obtain ⟨hcs, hcount⟩ := rlCalls_counter k limit w limit ⟨[], [], true⟩ rfl
      obtain ⟨_, _, hres⟩ := checkRateLimit_step k limit w _ hcs
      rw [hres, hcount]
      simp only [lookupKey, Option.getD_none]
      simp
  · intro k limit w st hd
    simp [checkRateLimit, hd]

/-- Witness for C2 at concrete inputs: with limit 2 the third call in a window
is denied, and a disconnected backend fails open. -/
theorem claimC2_rateLimit_witness :
    (checkRateLimit "id" 2 60 (rlCalls "id" 2 60 2 ⟨[], [], true⟩)).1 = false ∧
    checkRateLimit "id" 2 60 (⟨[], [], false⟩ : RLState) = (true, ⟨[], [], false⟩) :=
  ⟨(claimC2_rateLimit.2.1 "id" 2 60 (by decide)).2,
   claimC2_rateLimit.2.2 "id" 2 60 ⟨[], [], false⟩ rfl⟩

/-! ## Cache-aside store with JSON serialization (C9)

`RedisService.set` stores `JSON.stringify(value)` under the key with a TTL;
`get` returns `JSON.parse` of the payload, or absent after expiry / on a
backend failure.  The JSON codec itself is the JavaScript builtin (external
to this repository); we model it concretely on a JSON value type — numbers as
integers (binary floating-point text forms are out of scope, as the spec
itself directs high-precision decimals to strings), strings as character
lists with quote/backslash escaping, arrays and string-keyed objects — and
prove that parsing inverts printing. -/

def quoteCh : Char := Char.ofNat 34

def backslashCh : Char := Char.ofNat 92

def lbraceCh : Char := Char.ofNat 123

def rbraceCh : Char := Char.ofNat 125

def isDigitCh (c : Char) : Bool := decide (48 ≤ c.toNat) && decide (c.toNat ≤ 57)

def digitCh : Nat → Char
  | 0 => '0' | 1 => '1' | 2 => '2' | 3 => '3' | 4 => '4'
  | 5 => '5' | 6 => '6' | 7 => '7' | 8 => '8' | _ => '9'

def digitVal (c : Char) : Nat := c.toNat - 48

theorem digitVal_digitCh (d : Nat) (h : d < 10) : digitVal (digitCh d) = d := by
  interval_cases d <;> rfl

theorem isDigitCh_digitCh (d : Nat) (h : d < 10) : isDigitCh (digitCh d) = true := by
  interval_cases d <;> rfl

/-- The decimal digits of `n`, most significant first. -/
def natToChars (n : Nat) : List Char :=
  if h : n < 10 then [digitCh n]
  else natToChars (n / 10) ++ [digitCh (n % 10)]
termination_by n
decreasing_by
  exact Nat.div_lt_self (by omega) (by omega)

theorem natToChars_ne_nil (n : Nat) : natToChars n ≠ [] := by
  rw [natToChars]
  split <;> simp

theorem natToChars_all_digits (n : Nat) : ∀ c ∈ natToChars n, isDigitCh c = true := by
  induction n using Nat.strong_induction_on with
  | _ n ih =>
      rw [natToChars]
      by_cases h : n < 10
      · simp only [h, dif_pos]
        intro c hc
        simp at hc
        rw [hc]
        exact isDigitCh_digitCh n h
      · simp only [h, dif_neg, not_false_iff]
        intro c hc
        rcases List.mem_append.mp hc with hc | hc
        · exact ih (n / 10) (Nat.div_lt_self (by omega) (by omega)) c hc
        · simp at hc
          rw [hc]
          exact isDigitCh_digitCh (n % 10) (Nat.mod_lt n (by omega))

/-- Accumulating decimal evaluation, as a parser would fold digits. -/
def digitsVal : List Char → Nat → Nat
  | [], acc => acc
  | c :: t, acc => digitsVal t (acc * 10 + digitVal c)

theorem digitsVal_append (xs : List Char) (c : Char) :
    ∀ acc, digitsVal (xs ++ [c]) acc = digitsVal xs acc * 10 + digitVal c := by
  induction xs with
  | nil => intro acc; simp [digitsVal]
  | cons x t ih => intro acc; simp [digitsVal, ih]

theorem digitsVal_natToChars (n : Nat) : digitsVal (natToChars n) 0 = n := by
  induction n using Nat.strong_induction_on with
  | _ n ih =>
      rw [natToChars]
      by_cases h : n < 10
      · simp only [h, dif_pos]
        simp [digitsVal, digitVal_digitCh n h]
      · simp only [h, dif_neg, not_false_iff]
        rw [digitsVal_append, ih (n / 10) (Nat.div_lt_self (by omega) (by omega)),
          digitVal_digitCh (n % 10) (Nat.mod_lt n (by omega))]
        omega

/-- Longest digit prefix and the remaining input. -/
def takeDigits : List Char → List Char × List Char
  | [] => ([], [])
  | c :: t =>
      if isDigitCh c then (c :: (takeDigits t).1, (takeDigits t).2) else ([], c :: t)

/-- The input does not continue with a digit (so a number literal ends here). -/
def headSafe (rest : List Char) : Prop :=
  ∀ c, rest.head? = some c → isDigitCh c = false

theorem takeDigits_spec (ds : List Char) (rest : List Char)
    (hd : ∀ c ∈ ds, isDigitCh c = true) (hr : headSafe rest) :
    takeDigits (ds ++ rest) = (ds, rest) := by
  induction ds with
  | nil =>
      cases rest with
      | nil => rfl
      | cons c t =>
          have hc : isDigitCh c = false := hr c rfl
          simp [takeDigits, hc]
  | cons c t ih =>
      have hc : isDigitCh c = true := hd c (List.mem_cons_self c t)
      have ht := ih (fun x hx => hd x (List.mem_cons_of_mem c hx))
      simp [takeDigits, hc, ht]

/-- Decimal-number parsing: at least one digit, greedily. -/
def parseNat (s : List Char) : Option (Nat × List Char) :=
  match takeDigits s with
  | ([], _) => none
  | (ds, r) => some (digitsVal ds 0, r)

theorem parseNat_natToChars (n : Nat) (rest : List Char) (hr : headSafe rest) :
    parseNat (natToChars n ++ rest) = some (n, rest) := by
  have htd : takeDigits (natToChars n ++ rest) = (natToChars n, rest) :=
    takeDigits_spec (natToChars n) rest (natToChars_all_digits n) hr
  cases hnc : natToChars n with
  | nil => exact absurd hnc (natToChars_ne_nil n)
  | cons d t =>
      rw [hnc] at htd
      unfold parseNat
      rw [htd]
      show some (digitsVal (d :: t) 0, rest) = some (n, rest)
      rw [← hnc, digitsVal_natToChars n]

/-- JSON string escaping for one character: quote and backslash get a
backslash prefix, every other character is emitted verbatim. -/
def escChar (c : Char) : List Char :=
  if c = quoteCh ∨ c = backslashCh then [backslashCh, c] else [c]

def escapeChars : List Char → List Char
  | [] => []
  | c :: t => escChar c ++ escapeChars t

/-- Parse a string body up to the closing unescaped quote, undoing
escapes. -/
def parseStrBody (s : List Char) : Option (List Char × List Char) :=
  match s with
  | [] => none
  | c :: t =>
      if c = quoteCh then some ([], t)
      else if c = backslashCh then
        match t with
        | [] => none
        | c2 :: t2 => (parseStrBody t2).map (fun p => (c2 :: p.1, p.2))
      else (parseStrBody t).map (fun p => (c :: p.1, p.2))
termination_by s.length
decreasing_by
  all_goals simp_wf
  all_goals omega

theorem parseStrBody_cons (c : Char) (t : List Char) :
    parseStrBody (c :: t) =
      (if c = quoteCh then some ([], t)
       else if c = backslashCh then
         match t with
         | [] => none
         | c2 :: t2 => (parseStrBody t2).map (fun p => (c2 :: p.1, p.2))
       else (parseStrBody t).map (fun p => (c :: p.1, p.2))) := by
  rw [parseStrBody.eq_def]

theorem parseStrBody_escape (s : List Char) (rest : List Char) :
    parseStrBody (escapeChars s ++ (quoteCh :: rest)) = some (s, rest) := by
  induction s with
  | nil =>
      rw [show escapeChars [] ++ (quoteCh :: rest) = quoteCh :: rest from rfl]
      rw [parseStrBody_cons, if_pos rfl]
  | cons c t ih =>
      by_cases hc : c = quoteCh ∨ c = backslashCh
      · have hb : ¬ backslashCh = quoteCh := by decide
        rw [show escapeChars (c :: t) ++ (quoteCh :: rest)
            = backslashCh :: c :: (escapeChars t ++ (quoteCh :: rest)) from by
          simp [escapeChars, escChar, hc]]
        rw [parseStrBody_cons, if_neg hb, if_pos rfl]
        simp [ih]
      · push_neg at hc
        rw [show escapeChars (c :: t) ++ (quoteCh :: rest)
            = c :: (escapeChars t ++ (quoteCh :: rest)) from by
          simp [escapeChars, escChar, hc.1, hc.2]]
        rw [parseStrBody_cons, if_neg hc.1, if_neg hc.2]
        simp [ih]

/-- JSON values as passed to `JSON.stringify` by the cache layer: numbers
(modelled as integers), strings, sequences and string-keyed mappings. -/
inductive Json where
  | num (n : Int)
  | str (s : List Char)
  | arr (elems : List Json)
  | obj (members : List (List Char × Json))

/-- Decimal text of an integer. -/
def intChars (n : Int) : List Char :=
  if n < 0 then '-' :: natToChars (-n).toNat else natToChars n.toNat

mutual

/-- Printing as by `JSON.stringify` (no whitespace, as the builtin emits by default). -/
def strVal : Json → List Char
  | .num n => intChars n
  | .str s => quoteCh :: (escapeChars s ++ [quoteCh])
  | .arr l => '[' :: (strElems l ++ [']'])
  | .obj l => lbraceCh :: (strMembers l ++ [rbraceCh])

def strElems : List Json → List Char
  | [] => []
  | [v] => strVal v
  | v :: v2 :: rest => strVal v ++ ',' :: strElems (v2 :: rest)

def strMember : List Char × Json → List Char
  | (k, v) => quoteCh :: (escapeChars k ++ [quoteCh, ':']) ++ strVal v

def strMembers : List (List Char × Json) → List Char
  | [] => []
  | [m] => strMember m
  | m :: m2 :: rest => strMember m ++ ',' :: strMembers (m2 :: rest)

end

mutual

/-- Fuel measure for the parser: enough fuel to parse a printed value. -/
def sizeV : Json → Nat
  | .num _ => 1
  | .str _ => 1
  | .arr l => sizeE l + 1
  | .obj l => sizeM l + 1

def sizeE : List Json → Nat
  | [] => 0
  | v :: rest => sizeV v + sizeE rest + 1

def sizeM : List (List Char × Json) → Nat
  | [] => 0
  | m :: rest => sizeV m.2 + sizeM rest + 1

end

mutual

/-- Recursive-descent JSON value parsing with fuel. -/
def pVal : Nat → List Char → Option (Json × List Char)
  | 0, _ => none
  | f + 1, s =>
    match s with
    | [] => none
    | c :: t =>
      if c = quoteCh then (parseStrBody t).map (fun p => (Json.str p.1, p.2))
      else if c = '[' then
        match t with
        | [] => none
        | c2 :: t2 =>
            if c2 = ']' then some (Json.arr [], t2)
            else (pElems f (c2 :: t2)).map (fun p => (Json.arr p.1, p.2))
      else if c = lbraceCh then
        match t with
        | [] => none
        | c2 :: t2 =>
            if c2 = rbraceCh then some (Json.obj [], t2)
            else (pMembers f (c2 :: t2)).map (fun p => (Json.obj p.1, p.2))
      else if c = '-' then
        (parseNat t).map (fun p => (Json.num (-(p.1 : Int)), p.2))
      else if isDigitCh c then
        (parseNat (c :: t)).map (fun p => (Json.num ((p.1 : Nat) : Int), p.2))
      else none

/-- Parse one or more comma-separated elements and the closing bracket. -/
def pElems : Nat → List Char → Option (List Json × List Char)
  | 0, _ => none
  | f + 1, s =>
    match pVal f s with
    | none => none
    | some (v, r) =>
      match r with
      | [] => none
      | c :: t =>
          if c = ',' then (pElems f t).map (fun p => (v :: p.1, p.2))
          else if c = ']' then some ([v], t)
          else none

/-- Parse one or more `"key":value` members and the closing brace. -/
def pMembers : Nat → List Char → Option (List (List Char × Json) × List Char)
  | 0, _ => none
  | f + 1, s =>
    match s with
    | [] => none
    | c :: t =>
      if c = quoteCh then
        match parseStrBody t with
        | none => none
        | some (k, r) =>
          match r with
          | [] => none
          | c2 :: t2 =>
            if c2 = ':' then
              match pVal f t2 with
              | none => none
              | some (v, r2) =>
                match r2 with
                | [] => none
                | c3 :: t3 =>
                    if c3 = ',' then (pMembers f t3).map (fun p => ((k, v) :: p.1, p.2))
                    else if c3 = rbraceCh then some ([(k, v)], t3)
                    else none
            else none
      else none

end

/-- Parsing as by `JSON.parse`: a full-input parse of the payload, `none` on any garbage
(the service catches the thrown syntax error and returns null). -/
def jsonParse (s : List Char) : Option Json :=
  match pVal (s.length + 1) s with
  | some (v, []) => some v
  | _ => none

theorem isDigit_ne (c : Char) (h : isDigitCh c = true) :
    ¬ c = quoteCh ∧ ¬ c = '[' ∧ ¬ c = lbraceCh ∧ ¬ c = '-' ∧ ¬ c = ']' := by
  refine ⟨?_, ?_, ?_, ?_, ?_⟩ <;> intro he <;> rw [he] at h <;> exact absurd h (by decide)

theorem headSafe_nil : headSafe [] := by
  intro c hc
  simp at hc

theorem headSafe_cons (c : Char) (r : List Char) (h : isDigitCh c = false) :
    headSafe (c :: r) := by
  intro c2 hc2
  simp at hc2
  rw [← hc2]
  exact h

theorem strVal_shape (v : Json) : ∃ c cs, strVal v = c :: cs ∧ ¬ c = ']' := by
  cases v with
  | num n =>
      by_cases hn : n < 0
      · exact ⟨'-', natToChars (-n).toNat, by simp [strVal, intChars, hn], by decide⟩
      · cases hnc : natToChars n.toNat with
        | nil => exact absurd hnc (natToChars_ne_nil _)
        | cons d t =>
            have hd : isDigitCh d = true := natToChars_all_digits _ d
              (by rw [hnc]; exact List.mem_cons_self d t)
            exact ⟨d, t, by simp [strVal, intChars, hn, hnc], (isDigit_ne d hd).2.2.2.2⟩
  | str s => exact ⟨quoteCh, escapeChars s ++ [quoteCh], by simp [strVal], by decide⟩
  | arr l => exact ⟨'[', strElems l ++ [']'], by simp [strVal], by decide⟩
  | obj l => exact ⟨lbraceCh, strMembers l ++ [rbraceCh], by simp [strVal], by decide⟩

/-- The printed text following a sequence's first element. -/
def strElemsTail : List Json → List Char
  | [] => []
  | w :: ws => ',' :: strElems (w :: ws)

/-- The printed text following a mapping's first member. -/
def strMembersTail : List (List Char × Json) → List Char
  | [] => []
  | w :: ws => ',' :: strMembers (w :: ws)

theorem strElems_expand (v : Json) (l : List Json) :
    strElems (v :: l) = strVal v ++ strElemsTail l := by
  cases l <;> simp [strElems, strElemsTail]

theorem strMembers_expand (m : List Char × Json) (l : List (List Char × Json)) :
    strMembers (m :: l) = strMember m ++ strMembersTail l := by
  cases l <;> simp [strMembers, strMembersTail]

theorem pVal_cons (f : Nat) (c : Char) (t : List Char) :
    pVal (f + 1) (c :: t) =
      (if c = quoteCh then (parseStrBody t).map (fun p => (Json.str p.1, p.2))
       else if c = '[' then
         match t with
         | [] => none
         | c2 :: t2 =>
             if c2 = ']' then some (Json.arr [], t2)
             else (pElems f (c2 :: t2)).map (fun p => (Json.arr p.1, p.2))
       else if c = lbraceCh then
         match t with
         | [] => none
         | c2 :: t2 =>
             if c2 = rbraceCh then some (Json.obj [], t2)
             else (pMembers f (c2 :: t2)).map (fun p => (Json.obj p.1, p.2))
       else if c = '-' then
         (parseNat t).map (fun p => (Json.num (-(p.1 : Int)), p.2))
       else if isDigitCh c then
         (parseNat (c :: t)).map (fun p => (Json.num ((p.1 : Nat) : Int), p.2))
       else none) := rfl

theorem pVal_lbracket (f : Nat) (c2 : Char) (t2 : List Char) :
    pVal (f + 1) ('[' :: c2 :: t2) =
      (if c2 = ']' then some (Json.arr [], t2)
       else (pElems f (c2 :: t2)).map (fun p => (Json.arr p.1, p.2))) := rfl

theorem pVal_lbrace (f : Nat) (c2 : Char) (t2 : List Char) :
    pVal (f + 1) (lbraceCh :: c2 :: t2) =
      (if c2 = rbraceCh then some (Json.obj [], t2)
       else (pMembers f (c2 :: t2)).map (fun p => (Json.obj p.1, p.2))) := rfl

theorem sizeV_pos (v : Json) : 1 ≤ sizeV v := by
  cases v <;> simp [sizeV]

theorem pElems_succ (f : Nat) (s : List Char) :
    pElems (f + 1) s =
      (match pVal f s with
       | none => none
       | some (v, r) =>
         match r with
         | [] => none
         | c :: t =>
             if c = ',' then (pElems f t).map (fun p => (v :: p.1, p.2))
             else if c = ']' then some ([v], t)
             else none) := rfl

theorem pMembers_quote (f : Nat) (t : List Char) :
    pMembers (f + 1) (quoteCh :: t) =
      (match parseStrBody t with
       | none => none
       | some (k, r) =>
         match r with
         | [] => none
         | c2 :: t2 =>
           if c2 = ':' then
             match pVal f t2 with
             | none => none
             | some (v, r2) =>
               match r2 with
               | [] => none
               | c3 :: t3 =>
                   if c3 = ',' then (pMembers f t3).map (fun p => ((k, v) :: p.1, p.2))
                   else if c3 = rbraceCh then some ([(k, v)], t3)
                   else none
           else none) := rfl

theorem roundtrip_fuel (f : Nat) :
    (∀ (v : Json) (rest : List Char), sizeV v ≤ f → headSafe rest →
      pVal f (strVal v ++ rest) = some (v, rest)) ∧
    (∀ (l : List Json) (rest : List Char), l ≠ [] → sizeE l ≤ f →
      pElems f (strElems l ++ (']' :: rest)) = some (l, rest)) ∧
    (∀ (l : List (List Char × Json)) (rest : List Char), l ≠ [] → sizeM l ≤ f →
      pMembers f (strMembers l ++ (rbraceCh :: rest)) = some (l, rest)) := by
  induction f with
  | zero =>
      refine ⟨?_, ?_, ?_⟩
      · intro v rest hsz
        have := sizeV_pos v
        omega
      · intro l rest hne hsz
        cases l with
        | nil => exact absurd rfl hne
        | cons v l' => simp [sizeE] at hsz
      · intro l rest hne hsz
        cases l with
        | nil => exact absurd rfl hne
        | cons m l' => simp [sizeM] at hsz
  | succ f ih =>
      obtain ⟨ihP, ihQ, ihR⟩ := ih
      have hQstep : ∀ (l : List Json) (rest : List Char), l ≠ [] → sizeE l ≤ f + 1 →
          pElems (f + 1) (strElems l ++ (']' :: rest)) = some (l, rest) := by
        intro l rest hne hsz
        cases l with
        | nil => exact absurd rfl hne
        | cons v l' =>
            cases l' with
            | nil =>
                rw [show strElems [v] ++ (']' :: rest)
                    = strVal v ++ (']' :: rest) from by simp [strElems]]
                rw [pElems_succ]
                rw [ihP v (']' :: rest) (by simp [sizeE] at hsz; omega)
                  (headSafe_cons _ _ (by decide))]
                show (if (']' : Char) = ',' then
                    (pElems f rest).map (fun p => (v :: p.1, p.2))
                  else if (']' : Char) = ']' then some ([v], rest) else none)
                  = some ([v], rest)
                rw [if_neg (by decide), if_pos rfl]
            | cons v2 l'' =>
                rw [show strElems (v :: v2 :: l'') ++ (']' :: rest)
                    = strVal v ++ (',' :: (strElems (v2 :: l'') ++ (']' :: rest))) from by
                  simp [strElems]]
                rw [pElems_succ]
                rw [ihP v (',' :: (strElems (v2 :: l'') ++ (']' :: rest)))
                  (by simp [sizeE] at hsz ⊢; omega) (headSafe_cons _ _ (by decide))]
                show (if (',' : Char) = ',' then
                    (pElems f (strElems (v2 :: l'') ++ (']' :: rest))).map
                      (fun p => (v :: p.1, p.2))
                  else if (',' : Char) = ']' then
                    some ([v], strElems (v2 :: l'') ++ (']' :: rest))
                  else none) = some (v :: v2 :: l'', rest)
                rw [if_pos rfl]
                rw [ihQ (v2 :: l'') rest (by simp) (by simp [sizeE] at hsz ⊢; omega)]
                simp
      have hRstep : ∀ (l : List (List Char × Json)) (rest : List Char), l ≠ [] →
          sizeM l ≤ f + 1 →
          pMembers (f + 1) (strMembers l ++ (rbraceCh :: rest)) = some (l, rest) := by
        intro l rest hne hsz
        cases l with
        | nil => exact absurd rfl hne
        | cons m l' =>
            rcases m with ⟨k, mv⟩
            cases l' with
            | nil =>
                rw [show strMembers [(k, mv)] ++ (rbraceCh :: rest)
                    = quoteCh :: (escapeChars k ++
                        (quoteCh :: (':' :: (strVal mv ++ (rbraceCh :: rest))))) from by
                  simp [strMembers, strMember]]
                rw [pMembers_quote, parseStrBody_escape]
                show (if (':' : Char) = ':' then
                    (match pVal f (strVal mv ++ (rbraceCh :: rest)) with
                     | none => none
                     | some (v, r2) =>
                       match r2 with
                       | [] => none
                       | c3 :: t3 =>
                           if c3 = ',' then
                             (pMembers f t3).map (fun p => ((k, v) :: p.1, p.2))
                           else if c3 = rbraceCh then some ([(k, v)], t3)
                           else none)
                  else none) = some ([(k, mv)], rest)
                rw [if_pos rfl]
                rw [ihP mv (rbraceCh :: rest) (by simp [sizeM] at hsz; omega)
                  (headSafe_cons _ _ (by decide))]
                show (if rbraceCh = ',' then
                    (pMembers f rest).map (fun p => ((k, mv) :: p.1, p.2))
                  else if rbraceCh = rbraceCh then some ([(k, mv)], rest) else none)
                  = some ([(k, mv)], rest)
                rw [if_neg (by decide), if_pos rfl]
            | cons m2 l'' =>
                rw [show strMembers ((k, mv) :: m2 :: l'') ++ (rbraceCh :: rest)
                    = quoteCh :: (escapeChars k ++ (quoteCh :: (':' :: (strVal mv ++
                        (',' :: (strMembers (m2 :: l'') ++ (rbraceCh :: rest))))))) from by
                  simp [strMembers, strMember]]
                rw [pMembers_quote, parseStrBody_escape]
                show (if (':' : Char) = ':' then
                    (match pVal f (strVal mv ++
                        (',' :: (strMembers (m2 :: l'') ++ (rbraceCh :: rest)))) with
                     | none => none
                     | some (v, r2) =>
                       match r2 with
                       | [] => none
                       | c3 :: t3 =>
                           if c3 = ',' then
                             (pMembers f t3).map (fun p => ((k, v) :: p.1, p.2))
                           else if c3 = rbraceCh then some ([(k, v)], t3)
                           else none)
                  else none) = some ((k, mv) :: m2 :: l'', rest)
                rw [if_pos rfl]
                rw [ihP mv (',' :: (strMembers (m2 :: l'') ++ (rbraceCh :: rest)))
                  (by simp [sizeM] at hsz ⊢; omega) (headSafe_cons _ _ (by decide))]
                show (if (',' : Char) = ',' then
                    (pMembers f (strMembers (m2 :: l'') ++ (rbraceCh :: rest))).map
                      (fun p => ((k, mv) :: p.1, p.2))
                  else if (',' : Char) = rbraceCh then
                    some ([(k, mv)], strMembers (m2 :: l'') ++ (rbraceCh :: rest))
                  else none) = some ((k, mv) :: m2 :: l'', rest)
                rw [if_pos rfl]
                rw [ihR (m2 :: l'') rest (by simp) (by simp [sizeM] at hsz ⊢; omega)]
                simp
      have hP : ∀ (v : Json) (rest : List Char), sizeV v ≤ f + 1 → headSafe rest →
          pVal (f + 1) (strVal v ++ rest) = some (v, rest) := by
        intro v rest hsz hrest
        cases v with
        | num n =>
            by_cases hn : n < 0
            · rw [show strVal (Json.num n) ++ rest
                  = '-' :: (natToChars (-n).toNat ++ rest) from by
                simp [strVal, intChars, hn]]
              rw [pVal_cons]
              rw [if_neg (by decide), if_neg (by decide), if_neg (by decide),
                if_pos rfl]
              rw [parseNat_natToChars _ rest hrest]
              simp only [Option.map_some']
              have h2 : ((-n).toNat : Int) = -n := Int.toNat_of_nonneg (by omega)
              rw [h2]
              simp
            · cases hnc : natToChars n.toNat with
              | nil => exact absurd hnc (natToChars_ne_nil _)
              | cons d t =>
                  have hd : isDigitCh d = true := natToChars_all_digits _ d
                    (by rw [hnc]; exact List.mem_cons_self d t)
                  obtain ⟨h1, h2, h3, h4, _⟩ := isDigit_ne d hd
                  rw [show strVal (Json.num n) ++ rest = d :: (t ++ rest) from by
                    simp [strVal, intChars, hn, hnc]]
                  rw [pVal_cons]
                  rw [if_neg h1, if_neg h2, if_neg h3, if_neg h4, if_pos hd]
                  rw [show d :: (t ++ rest) = (d :: t) ++ rest from rfl, ← hnc]
                  rw [parseNat_natToChars _ rest hrest]
                  simp only [Option.map_some']
                  have h5 : ((n.toNat : Nat) : Int) = n := Int.toNat_of_nonneg (by omega)
                  rw [h5]
        | str s =>
            rw [show strVal (Json.str s) ++ rest
                = quoteCh :: (escapeChars s ++ (quoteCh :: rest)) from by
              simp [strVal]]
            rw [pVal_cons, if_pos rfl, parseStrBody_escape]
            simp
        | arr l =>
            cases l with
            | nil =>
                rw [show strVal (Json.arr []) ++ rest = '[' :: ']' :: rest from by
                  simp [strVal, strElems]]
                rw [pVal_lbracket, if_pos rfl]
            | cons v l' =>
                obtain ⟨c, cs, hvc, hcne⟩ := strVal_shape v
                have hsp : strElems (v :: l') ++ (']' :: rest)
                    = c :: (cs ++ (strElemsTail l' ++ (']' :: rest))) := by
                  rw [strElems_expand, hvc]
                  simp
                rw [show strVal (Json.arr (v :: l')) ++ rest
                    = '[' :: (strElems (v :: l') ++ (']' :: rest)) from by
                  simp [strVal]]
                rw [hsp, pVal_lbracket, if_neg hcne, ← hsp]
                rw [ihQ (v :: l') rest (by simp) (by simp [sizeV] at hsz; omega)]
                simp
        | obj l =>
            cases l with
            | nil =>
                rw [show strVal (Json.obj []) ++ rest
                    = lbraceCh :: rbraceCh :: rest from by
                  simp [strVal, strMembers]]
                rw [pVal_lbrace, if_pos rfl]
            | cons m l' =>
                have hq2 : ¬ quoteCh = rbraceCh := by decide
                have hsp : strMembers (m :: l') ++ (rbraceCh :: rest)
                    = quoteCh :: (((escapeChars m.1 ++ [quoteCh, ':']) ++ strVal m.2)
                        ++ (strMembersTail l' ++ (rbraceCh :: rest))) := by
                  rw [strMembers_expand]
                  rcases m with ⟨k, mv⟩
                  simp [strMember]
                rw [show strVal (Json.obj (m :: l')) ++ rest
                    = lbraceCh :: (strMembers (m :: l') ++ (rbraceCh :: rest)) from by
                  simp [strVal]]
                rw [hsp, pVal_lbrace, if_neg hq2, ← hsp]
                rw [ihR (m :: l') rest (by simp) (by simp [sizeV] at hsz; omega)]
                simp
      exact ⟨hP, hQstep, hRstep⟩

theorem size_le_len_fuel (f : Nat) :
    (∀ v, sizeV v ≤ f → sizeV v ≤ (strVal v).length) ∧
    (∀ l, sizeE l ≤ f → sizeE l ≤ (strElems l).length + 1) ∧
    (∀ l, sizeM l ≤ f → sizeM l ≤ (strMembers l).length + 1) := by
  induction f with
  | zero =>
      refine ⟨?_, ?_, ?_⟩
      · intro v hs
        have := sizeV_pos v
        omega
      · intro l hs
        cases l with
        | nil => simp [sizeE]
        | cons v l' => simp [sizeE] at hs
      · intro l hs
        cases l with
        | nil => simp [sizeM]
        | cons m l' => simp [sizeM] at hs
  | succ f ih =>
      obtain ⟨ihP, ihQ, ihR⟩ := ih
      refine ⟨?_, ?_, ?_⟩
      · intro v hs
        cases v with
        | num n =>
            by_cases hn : n < 0
            · simp [sizeV, strVal, intChars, hn]
            · cases hnc : natToChars n.toNat with
              | nil => exact absurd hnc (natToChars_ne_nil _)
              | cons d t => simp [sizeV, strVal, intChars, hn, hnc]
        | str s => simp [sizeV, strVal]
        | arr l =>
            have h2 := ihQ l (by simp [sizeV] at hs; omega)
            have hlen : (strVal (Json.arr l)).length = (strElems l).length + 2 := by
              simp [strVal]
            simp only [sizeV]
            omega
        | obj l =>
            have h2 := ihR l (by simp [sizeV] at hs; omega)
            have hlen : (strVal (Json.obj l)).length = (strMembers l).length + 2 := by
              simp [strVal]
            simp only [sizeV]
            omega
      · intro l hs
        cases l with
        | nil => simp [sizeE]
        | cons v l' =>
            cases l' with
            | nil =>
                have h2 := ihP v (by simp [sizeE] at hs; omega)
                simp [sizeE, strElems]
                omega
            | cons v2 l'' =>
                have h2 := ihP v (by simp [sizeE] at hs ⊢; omega)
                have h3 := ihQ (v2 :: l'') (by simp [sizeE] at hs ⊢; omega)
                have hlen : (strElems (v :: v2 :: l'')).length
                    = (strVal v).length + 1 + (strElems (v2 :: l'')).length := by
                  simp [strElems]
                  omega
                simp only [sizeE] at *
                omega
      · intro l hs
        cases l with
        | nil => simp [sizeM]
        | cons m l' =>
            rcases m with ⟨k, mv⟩
            have hlenm : (strMember (k, mv)).length
                = (escapeChars k).length + 3 + (strVal mv).length := by
              simp [strMember]
              omega
            cases l' with
            | nil =>
                have h2 := ihP mv (by simp [sizeM] at hs; omega)
                have hlen : (strMembers [(k, mv)]).length = (strMember (k, mv)).length := by
                  simp [strMembers]
                simp only [sizeM] at *
                omega
            | cons m2 l'' =>
                have h2 := ihP mv (by simp [sizeM] at hs ⊢; omega)
                have h3 := ihR (m2 :: l'') (by simp [sizeM] at hs ⊢; omega)
                have hlen : (strMembers ((k, mv) :: m2 :: l'')).length
                    = (strMember (k, mv)).length + 1 + (strMembers (m2 :: l'')).length := by
                  simp [strMembers]
                  omega
                simp only [sizeM] at *
                omega

/-- Parsing inverts printing: `JSON.parse(JSON.stringify(v))` recovers `v`
for every modelled JSON value. -/
theorem jsonParse_strVal (v : Json) : jsonParse (strVal v) = some v := by
  have hsz : sizeV v ≤ (strVal v).length + 1 := by
    have := (size_le_len_fuel (sizeV v)).1 v (le_refl _)
    omega
  have h := (roundtrip_fuel ((strVal v).length + 1)).1 v [] hsz headSafe_nil
  rw [List.append_nil] at h
  unfold jsonParse
  rw [h]

/-- One Redis entry as written by `setEx`: the serialized payload and the
absolute expiry instant. -/
structure KVEntry where
  payload : List Char
  expiresAt : Nat

/-- The cache backend: a clock, the entries, and reachability of the client
(`getClient()` null or a thrown command error models `connected = false`). -/
structure KVStore where
  now : Nat
  entries : List (String × KVEntry)
  connected : Bool

/-- The method `RedisService.set` (lines 16-27): `setEx key ttl (JSON.stringify value)`,
reporting `false` instead of throwing when the backend is unreachable. -/
def kvSet (k : String) (v : Json) (ttl : Nat) (st : KVStore) : Bool × KVStore :=
  if st.connected = false then (false, st)
  else (true, { st with entries := putKey st.entries k ⟨strVal v, st.now + ttl⟩ })

/-- The method `RedisService.get` (lines 29-39): absent when the backend is unreachable,
the key is missing, or the entry has expired; otherwise `JSON.parse` of the
payload (a parse failure is caught and yields null). -/
def kvGet (k : String) (st : KVStore) : Option Json :=
  if st.connected = false then none
  else
    match lookupKey st.entries k with
    | none => none
    | some e => if st.now < e.expiresAt then jsonParse e.payload else none

/-- The passage of `d` seconds. -/
def kvAdvance (d : Nat) (st : KVStore) : KVStore := { st with now := st.now + d }

/-- C9: after a successful `set(k, v, ttl)`, `get(k)` returns exactly `v` at
every instant strictly before the ttl elapses and absent from the expiry
instant on — serialization followed by deserialization is the identity on the
modelled structured values (integers, strings, nested sequences and
mappings). -/
theorem claimC9_cache (k : String) (v : Json) (ttl : Nat) (st : KVStore)
    (hc : st.connected = true) (ht : 0 < ttl) :
    (kvSet k v ttl st).1 = true ∧
    (∀ d, d < ttl → kvGet k (kvAdvance d (kvSet k v ttl st).2) = some v) ∧
    (∀ d, ttl ≤ d → kvGet k (kvAdvance d (kvSet k v ttl st).2) = none) ∧
    jsonParse (strVal v) = some v := by
  have hc2 : ¬ st.connected = false := by rw [hc]; simp
  have hset : kvSet k v ttl st
      = (true, { st with entries := putKey st.entries k ⟨strVal v, st.now + ttl⟩ }) := by
    rw [kvSet, if_neg hc2]
  refine ⟨by rw [hset], ?_, ?_, jsonParse_strVal v⟩
  · intro d hd
    rw [hset]
    show kvGet k ⟨st.now + d, putKey st.entries k ⟨strVal v, st.now + ttl⟩, st.connected⟩
      = some v
    rw [kvGet]
    rw [if_neg hc2]
    rw [show lookupKey (putKey st.entries k ⟨strVal v, st.now + ttl⟩) k
        = some ⟨strVal v, st.now + ttl⟩ from lookupKey_putKey_self st.entries k _]
    show (if st.now + d < st.now + ttl then jsonParse (strVal v) else none) = some v
    rw [if_pos (by omega : st.now + d < st.now + ttl)]
    exact jsonParse_strVal v
  · intro d hd
    rw [hset]
    show kvGet k ⟨st.now + d, putKey st.entries k ⟨strVal v, st.now + ttl⟩, st.connected⟩
      = none
    rw [kvGet]
    rw [if_neg hc2]
    rw [show lookupKey (putKey st.entries k ⟨strVal v, st.now + ttl⟩) k
        = some ⟨strVal v, st.now + ttl⟩ from lookupKey_putKey_self st.entries k _]
    show (if st.now + d < st.now + ttl then jsonParse (strVal v) else none) = none
    rw [if_neg (by omega : ¬ st.now + d < st.now + ttl)]

/-- Witness for C9 at a concrete input: a nested object survives a set/get
cycle 3 seconds into a 5-second ttl and is gone 7 seconds in. -/
theorem claimC9_cache_witness :
    kvGet "cart:7" (kvAdvance 3
      (kvSet "cart:7" (Json.obj [(['a'], Json.num (-5)),
        (['b'], Json.arr [Json.num 12, Json.str ['x']])]) 5 ⟨0, [], true⟩).2)
      = some (Json.obj [(['a'], Json.num (-5)),
        (['b'], Json.arr [Json.num 12, Json.str ['x']])]) ∧
    kvGet "cart:7" (kvAdvance 7
      (kvSet "cart:7" (Json.obj [(['a'], Json.num (-5)),
        (['b'], Json.arr [Json.num 12, Json.str ['x']])]) 5 ⟨0, [], true⟩).2)
      = none :=
  ⟨(claimC9_cache "cart:7" (Json.obj [(['a'], Json.num (-5)),
      (['b'], Json.arr [Json.num 12, Json.str ['x']])]) 5 ⟨0, [], true⟩
      rfl (by decide)).2.1 3 (by decide),
   (claimC9_cache "cart:7" (Json.obj [(['a'], Json.num (-5)),
      (['b'], Json.arr [Json.num 12, Json.str ['x']])]) 5 ⟨0, [], true⟩
      rfl (by decide)).2.2.1 7 (by decide)⟩

end NGDB
